import Mathlib

/-!
Verification development for the IPL Auction server (`server.js`).

The engine's per-room state (teams, budgets, rosters, sold set, bidding
sessions, batch dispatch state) and its operations are shallowly embedded
as Lean functions.  JavaScript objects keyed by strings become association
lists, JS `Set`s become lists with membership-respecting insertion, money
amounts (JS numbers; integral throughout the engine paths) become `Int`,
and wall-clock timestamps (`Date.now()` / ISO strings) become `Nat` values
supplied by the caller.  Side effects (Socket.IO emits, lowdb writes,
console logging) do not affect room state and are omitted; the in-place
`Array.prototype.sort` used at session resolution is modelled by storing
the stably sorted list back into the session.
-/

namespace IPLAuction

/-- Money amounts (JS numbers; all engine paths use integral values). -/
abbrev Money := Int

/-- Player position types, from `CYCLE_ORDER = ['BAT','AR','BOWL','WK']`. -/
inductive PType
  | BAT
  | AR
  | BOWL
  | WK
deriving DecidableEq, Repr

/-- A CSV catalog row after `loadCSVData` normalisation: `basePrice = none`
models the `null` given to `'-'`/empty base values (blind-pool membership). -/
structure Player where
  name : String
  team : String
  type : PType
  basePrice : Option Money
deriving DecidableEq, Repr

/-- `MAX_PLAYERS_PER_TEAM = 15` in `server.js`. -/
def MAX_PLAYERS_PER_TEAM : Nat := 15

/-- `DEFAULT_BUDGET = 100000` in `server.js`. -/
def DEFAULT_BUDGET : Money := 100000

/-- `BIDDING_TIMEOUT = 60 * 1000` (ms). -/
def BIDDING_TIMEOUT : Int := 60000

/-- `BLIND_BID_TIMEOUT = 5 * 60 * 1000` (ms). -/
def BLIND_BID_TIMEOUT : Int := 300000

/-- One bid record as pushed by `/place-bid` / `/place-blind-bid`:
`{ bidderTeam, amount, timestamp, bidId }`. -/
structure Bid where
  bidderTeam : String
  amount : Money
  timestamp : Nat
  bidId : String
deriving DecidableEq, Repr

/-- Session status strings `'active' | 'closed' | 'sold'`. -/
inductive BidStatus
  | active
  | closed
  | sold
deriving DecidableEq, Repr

/-- A bidding session object (`room.currentBids[p]` / `room.blindBids[p]`).
Blind sessions carry no base price (`basePrice = none`). -/
structure BidSession where
  playerName : String
  playerType : PType
  basePrice : Option Money
  bids : List Bid
  biddingStartTime : Nat
  lastBidTime : Option Nat
  status : BidStatus
  closedAt : Option Nat
  soldTo : Option String
  finalPrice : Option Money
deriving DecidableEq, Repr

/-- A roster entry as pushed by the three award paths
(`team.players.push({...})`). -/
structure PurchasedPlayer where
  name : String
  team : String
  type : PType
  basePrice : Option Money
  boughtPrice : Money
  boughtAt : Nat
  awardedBy : Option String
deriving DecidableEq, Repr

/-- A team record `room.users[name] = { username, budget, players }`. -/
structure Team where
  username : String
  budget : Money
  players : List PurchasedPlayer
deriving DecidableEq, Repr

/-- `room.batchState`: cycle position, dispatched-name set, per-type
pointers into the sorted pools. -/
structure BatchState where
  currentCycleIndex : Nat
  sentPlayers : List String
  ptrBAT : Nat
  ptrAR : Nat
  ptrBOWL : Nat
  ptrWK : Nat
deriving DecidableEq, Repr

/-- One room, as created by `POST /create-room`.  The JS objects keyed by
user / player name become association lists; the JS `Set`s become lists. -/
structure Room where
  roomId : String
  users : List (String × Team)
  budgetPerUser : Money
  createdAt : Nat
  lastActivity : Nat
  soldPlayers : List String
  currentBids : List (String × BidSession)
  blindBids : List (String × BidSession)
  batchState : BatchState
deriving DecidableEq, Repr

/-! ### JS object / Set primitives -/

/-- Property read `m[k]` on a JS object modelled as an association list. -/
def lookup {α : Type} (m : List (String × α)) (k : String) : Option α :=
  match m.find? (fun p => p.1 == k) with
  | some p => some p.2
  | none => none

/-- In-place mutation of the value stored at key `k`. -/
def updateKey {α : Type} (m : List (String × α)) (k : String) (f : α → α) :
    List (String × α) :=
  m.map (fun p => if p.1 == k then (p.1, f p.2) else p)

/-- Property write `m[k] = v` (overwrites, or appends in insertion order). -/
def insertKey {α : Type} (m : List (String × α)) (k : String) (v : α) :
    List (String × α) :=
  if (lookup m k).isSome then updateKey m k (fun _ => v) else m ++ [(k, v)]

/-- `Set.prototype.has`. -/
def setHas (s : List String) (x : String) : Bool :=
  s.contains x

/-- `Set.prototype.add` (no-op on members, appends in insertion order). -/
def setAdd (s : List String) (x : String) : List String :=
  if s.contains x then s else s ++ [x]

/-! ### The stable descending sort

Every resolution and history path runs
`bids.sort((a, b) => b.amount - a.amount)`; `Array.prototype.sort` is
stable (ES2019), so ties keep arrival order.  We model it with a stable
insertion sort parameterised by the sort key. -/

def insertByDesc {α : Type} (key : α → Int) (x : α) : List α → List α
  | [] => [x]
  | h :: t => if key h ≤ key x then x :: h :: t else h :: insertByDesc key x t

def sortByDesc {α : Type} (key : α → Int) (l : List α) : List α :=
  l.foldr (insertByDesc key) []

/-- `bids.sort((a, b) => b.amount - a.amount)`. -/
def sortBidsDesc (l : List Bid) : List Bid :=
  sortByDesc (fun b => b.amount) l

/-! ### Error taxonomy (the distinct 4xx responses of `server.js`) -/

inductive ApiError
  | TeamNotFound
  | InsufficientBudget
  | RosterFull
  | PlayerNotFound
  | PlayerAlreadySold
  | SessionNotActive
  | BelowBasePrice
  | BidTooLow
  | DuplicateBid
  | BiddingAlreadyStarted
  | NoBiddingFound
  | AlreadyClosed
deriving DecidableEq, Repr

/-- The blind-bid pool: `blindBidPlayers = csvPlayers.filter(p => p.basePrice === null)`. -/
def blindPool (csv : List Player) : List Player :=
  csv.filter (fun p => p.basePrice.isNone)

/-- `POST /create-room`: initialise users (later duplicates overwrite the
identical fresh record, as JS object assignment does), empty sold set,
empty session tables, fresh batch state. -/
def mkRoom (roomId : String) (users : List String) (budgetPerUser : Money)
    (now : Nat) : Room :=
  { roomId := roomId
    users := users.foldl
      (fun m u => insertKey m u { username := u, budget := budgetPerUser, players := [] }) []
    budgetPerUser := budgetPerUser
    createdAt := now
    lastActivity := now
    soldPlayers := []
    currentBids := []
    blindBids := []
    batchState :=
      { currentCycleIndex := 0, sentPlayers := [],
        ptrBAT := 0, ptrAR := 0, ptrBOWL := 0, ptrWK := 0 } }

/-! ### `POST /select-player` (direct purchase) -/

/-- `POST /select-player`: validations in source order, then debit budget,
append the roster record, and mark the name sold.  Returns the unchanged
room implicitly on error (no mutation happens before a failed check). -/
def selectPlayer (csv : List Player) (now : Nat) (room : Room)
    (playerName : String) (soldPrice : Money) (buyerTeam : String) :
    Except ApiError Room :=
  match lookup room.users buyerTeam with
  | none => .error .TeamNotFound
  | some team =>
    if team.budget < soldPrice then .error .InsufficientBudget
    else if MAX_PLAYERS_PER_TEAM ≤ team.players.length then .error .RosterFull
    else
      match csv.find? (fun p => p.name == playerName) with
      | none => .error .PlayerNotFound
      | some player =>
        if setHas room.soldPlayers playerName then .error .PlayerAlreadySold
        else
          .ok { room with
            users := updateKey room.users buyerTeam (fun t =>
              { t with
                budget := t.budget - soldPrice
                players := t.players ++
                  [{ name := playerName, team := player.team, type := player.type,
                     basePrice := player.basePrice, boughtPrice := soldPrice,
                     boughtAt := now, awardedBy := none }] })
            soldPlayers := setAdd room.soldPlayers playerName
            lastActivity := now }

/-! ### `POST /place-bid` (regular open-ascending bidding) -/

/-- `player.basePrice && bidAmount < player.basePrice`: the floor check is
skipped when the base price is `null` or `0` (JS falsiness). -/
def baseFloorViolated (basePrice : Option Money) (amount : Money) : Bool :=
  match basePrice with
  | none => false
  | some bp => if bp = 0 then false else decide (amount < bp)

/-- `bids.length > 0 ? Math.max(...bids.map(b => b.amount)) : 0`. -/
def currentHighest (bids : List Bid) : Money :=
  match bids with
  | [] => 0
  | b :: rest => rest.foldl (fun m x => max m x.amount) b.amount

/-- The tail of `/place-bid` once the session object `pbd` is in hand
(either pre-existing or freshly auto-created inside `room1`). -/
def placeBidOnSession (now : Nat) (bidId : String) (room1 : Room)
    (playerName : String) (bidAmount : Money) (bidderTeam : String)
    (pbd : BidSession) : Except ApiError Unit × Room :=
  if pbd.status ≠ .active then (.error .SessionNotActive, room1)
  else if baseFloorViolated pbd.basePrice bidAmount then (.error .BelowBasePrice, room1)
  else if bidAmount ≤ currentHighest pbd.bids then (.error .BidTooLow, room1)
  else
    (.ok (), { room1 with
      currentBids := updateKey room1.currentBids playerName (fun s =>
        { s with
          bids := s.bids ++ [{ bidderTeam := bidderTeam, amount := bidAmount,
                               timestamp := now, bidId := bidId }]
          lastBidTime := some now })
      lastActivity := now })

/-- `POST /place-bid`: validations in source order; when no session exists
for the player one is auto-created (`room.currentBids[playerName] = {...}`)
*before* the remaining bid checks run, so a bid that then fails the floor
or too-low check still leaves the new session behind. -/
def placeBid (csv : List Player) (now : Nat) (bidId : String) (room : Room)
    (playerName : String) (bidAmount : Money) (bidderTeam : String) :
    Except ApiError Unit × Room :=
  match lookup room.users bidderTeam with
  | none => (.error .TeamNotFound, room)
  | some team =>
    if team.budget < bidAmount then (.error .InsufficientBudget, room)
    else if MAX_PLAYERS_PER_TEAM ≤ team.players.length then (.error .RosterFull, room)
    else
      match csv.find? (fun p => p.name == playerName) with
      | none => (.error .PlayerNotFound, room)
      | some player =>
        if setHas room.soldPlayers playerName then (.error .PlayerAlreadySold, room)
        else
          match lookup room.currentBids playerName with
          | some pbd =>
            placeBidOnSession now bidId room playerName bidAmount bidderTeam pbd
          | none =>
            let fresh : BidSession :=
              { playerName := playerName, playerType := player.type,
                basePrice := player.basePrice, bids := [],
                biddingStartTime := now, lastBidTime := none,
                status := .active, closedAt := none, soldTo := none,
                finalPrice := none }
            placeBidOnSession now bidId
              { room with currentBids := room.currentBids ++ [(playerName, fresh)] }
              playerName bidAmount bidderTeam fresh

/-! ### `POST /place-blind-bid` (sealed bidding) -/

/-- The tail of `/place-blind-bid` once the blind session `pbd` is in hand. -/
def placeBlindBidOnSession (now : Nat) (bidId : String) (room1 : Room)
    (playerName : String) (bidAmount : Money) (bidderTeam : String)
    (pbd : BidSession) : Except ApiError Unit × Room :=
  if pbd.status ≠ .active then (.error .SessionNotActive, room1)
  else if (pbd.bids.find? (fun b => b.bidderTeam == bidderTeam)).isSome then
    (.error .DuplicateBid, room1)
  else
    (.ok (), { room1 with
      blindBids := updateKey room1.blindBids playerName (fun s =>
        { s with
          bids := s.bids ++ [{ bidderTeam := bidderTeam, amount := bidAmount,
                               timestamp := now, bidId := bidId }]
          lastBidTime := some now })
      lastActivity := now })

/-- `POST /place-blind-bid`: like `/place-bid` but the player must be in
the blind pool, one bid per team, and no floor / too-low checks. -/
def placeBlindBid (csv : List Player) (now : Nat) (bidId : String) (room : Room)
    (playerName : String) (bidAmount : Money) (bidderTeam : String) :
    Except ApiError Unit × Room :=
  match lookup room.users bidderTeam with
  | none => (.error .TeamNotFound, room)
  | some team =>
    if team.budget < bidAmount then (.error .InsufficientBudget, room)
    else if MAX_PLAYERS_PER_TEAM ≤ team.players.length then (.error .RosterFull, room)
    else
      match (blindPool csv).find? (fun p => p.name == playerName) with
      | none => (.error .PlayerNotFound, room)
      | some player =>
        if setHas room.soldPlayers playerName then (.error .PlayerAlreadySold, room)
        else
          match lookup room.blindBids playerName with
          | some pbd =>
            placeBlindBidOnSession now bidId room playerName bidAmount bidderTeam pbd
          | none =>
            let fresh : BidSession :=
              { playerName := playerName, playerType := player.type,
                basePrice := none, bids := [],
                biddingStartTime := now, lastBidTime := none,
                status := .active, closedAt := none, soldTo := none,
                finalPrice := none }
            placeBlindBidOnSession now bidId
              { room with blindBids := room.blindBids ++ [(playerName, fresh)] }
              playerName bidAmount bidderTeam fresh

/-! ### `POST /start-bidding` / `POST /start-blind-bidding` -/

/-- `POST /start-bidding`: the player must be in the priced catalog
(`basePrice !== null`), not sold, with no existing session. -/
def startBidding (csv : List Player) (now : Nat) (room : Room)
    (playerName : String) : Except ApiError Room :=
  match csv.find? (fun p => p.name == playerName && p.basePrice.isSome) with
  | none => .error .PlayerNotFound
  | some player =>
    if setHas room.soldPlayers playerName then .error .PlayerAlreadySold
    else if (lookup room.currentBids playerName).isSome then .error .BiddingAlreadyStarted
    else
      .ok { room with
        currentBids := room.currentBids ++
          [(playerName,
            { playerName := playerName, playerType := player.type,
              basePrice := player.basePrice, bids := [],
              biddingStartTime := now, lastBidTime := none,
              status := .active, closedAt := none, soldTo := none,
              finalPrice := none })]
        lastActivity := now }

/-- `POST /start-blind-bidding`. -/
def startBlindBidding (csv : List Player) (now : Nat) (room : Room)
    (playerName : String) : Except ApiError Room :=
  match (blindPool csv).find? (fun p => p.name == playerName) with
  | none => .error .PlayerNotFound
  | some player =>
    if setHas room.soldPlayers playerName then .error .PlayerAlreadySold
    else if (lookup room.blindBids playerName).isSome then .error .BiddingAlreadyStarted
    else
      .ok { room with
        blindBids := room.blindBids ++
          [(playerName,
            { playerName := playerName, playerType := player.type,
              basePrice := none, bids := [],
              biddingStartTime := now, lastBidTime := none,
              status := .active, closedAt := none, soldTo := none,
              finalPrice := none })]
        lastActivity := now }

/-! ### Session resolution (`autoAwardPlayer` / `autoAwardBlindBidPlayer`) -/

/-- `autoAwardPlayer`: a no-op unless the session exists and is `active`;
otherwise mark it closed, stably sort the bids (the in-place
`bids.sort`), and if a winning bid exists whose team is found, can afford
the amount, and has roster space, apply the award (debit budget, append
the roster record, add to the sold set, mark the session sold).  Note: the
room's sold set is *not* re-checked here. -/
def autoAwardPlayer (csv : List Player) (now : Nat) (room : Room)
    (playerName : String) : Room :=
  match lookup room.currentBids playerName with
  | none => room
  | some pbd =>
    if pbd.status ≠ .active then room
    else
      let sorted := sortBidsDesc pbd.bids
      let closedS : BidSession :=
        { pbd with status := .closed, closedAt := some now, bids := sorted }
      let roomClosed :=
        { room with currentBids := updateKey room.currentBids playerName (fun _ => closedS) }
      match sorted.head? with
      | none => roomClosed
      | some winningBid =>
        match lookup room.users winningBid.bidderTeam,
              csv.find? (fun p => p.name == playerName) with
        | some team, some player =>
          if winningBid.amount ≤ team.budget ∧ team.players.length < MAX_PLAYERS_PER_TEAM then
            { roomClosed with
              users := updateKey roomClosed.users winningBid.bidderTeam (fun t =>
                { t with
                  budget := t.budget - winningBid.amount
                  players := t.players ++
                    [{ name := playerName, team := player.team, type := player.type,
                       basePrice := player.basePrice, boughtPrice := winningBid.amount,
                       boughtAt := now, awardedBy := some "auto_highest_bid" }] })
              soldPlayers := setAdd roomClosed.soldPlayers playerName
              currentBids := updateKey roomClosed.currentBids playerName (fun s =>
                { s with status := .sold, soldTo := some winningBid.bidderTeam,
                         finalPrice := some winningBid.amount }) }
          else roomClosed
        | _, _ => roomClosed

/-- `autoAwardBlindBidPlayer`: identical shape on `room.blindBids`, with
the player looked up in the blind pool and `basePrice: null` in the
roster record. -/
def autoAwardBlindBidPlayer (csv : List Player) (now : Nat) (room : Room)
    (playerName : String) : Room :=
  match lookup room.blindBids playerName with
  | none => room
  | some pbd =>
    if pbd.status ≠ .active then room
    else
      let sorted := sortBidsDesc pbd.bids
      let closedS : BidSession :=
        { pbd with status := .closed, closedAt := some now, bids := sorted }
      let roomClosed :=
        { room with blindBids := updateKey room.blindBids playerName (fun _ => closedS) }
      match sorted.head? with
      | none => roomClosed
      | some winningBid =>
        match lookup room.users winningBid.bidderTeam,
              (blindPool csv).find? (fun p => p.name == playerName) with
        | some team, some player =>
          if winningBid.amount ≤ team.budget ∧ team.players.length < MAX_PLAYERS_PER_TEAM then
            { roomClosed with
              users := updateKey roomClosed.users winningBid.bidderTeam (fun t =>
                { t with
                  budget := t.budget - winningBid.amount
                  players := t.players ++
                    [{ name := playerName, team := player.team, type := player.type,
                       basePrice := none, boughtPrice := winningBid.amount,
                       boughtAt := now, awardedBy := some "auto_blind_bid" }] })
              soldPlayers := setAdd roomClosed.soldPlayers playerName
              blindBids := updateKey roomClosed.blindBids playerName (fun s =>
                { s with status := .sold, soldTo := some winningBid.bidderTeam,
                         finalPrice := some winningBid.amount }) }
          else roomClosed
        | _, _ => roomClosed

/-! ### `POST /close-bidding` (manual close) -/

inductive BiddingType
  | regular
  | blind
deriving DecidableEq, Repr

/-- `POST /close-bidding`: 404 if no session; 400 if the session is
already terminal; otherwise it triggers the same auto-award resolution as
the timeout. -/
def closeBidding (csv : List Player) (now : Nat) (room : Room)
    (playerName : String) (biddingType : BiddingType) : Except ApiError Room :=
  match biddingType with
  | .regular =>
    match lookup room.currentBids playerName with
    | none => .error .NoBiddingFound
    | some bidData =>
      if bidData.status ≠ .active then .error .AlreadyClosed
      else .ok (autoAwardPlayer csv now room playerName)
  | .blind =>
    match lookup room.blindBids playerName with
    | none => .error .NoBiddingFound
    | some bidData =>
      if bidData.status ≠ .active then .error .AlreadyClosed
      else .ok (autoAwardBlindBidPlayer csv now room playerName)

/-! ### The engine operations as a transition system -/

/-- One engine operation against a room, with the environment-chosen
timestamp (and bid id, where the source generates one) made explicit.
`timerFireRegular` / `timerFireBlind` are the deferred callbacks armed by
`scheduleAutoCloseBidding` / `scheduleAutoCloseBlindBidding`. -/
inductive Op
  | selectPlayerOp (playerName : String) (soldPrice : Money) (buyerTeam : String) (now : Nat)
  | placeBidOp (playerName : String) (bidAmount : Money) (bidderTeam : String)
      (now : Nat) (bidId : String)
  | placeBlindBidOp (playerName : String) (bidAmount : Money) (bidderTeam : String)
      (now : Nat) (bidId : String)
  | startBiddingOp (playerName : String) (now : Nat)
  | startBlindBiddingOp (playerName : String) (now : Nat)
  | closeBiddingOp (playerName : String) (biddingType : BiddingType) (now : Nat)
  | timerFireRegular (playerName : String) (now : Nat)
  | timerFireBlind (playerName : String) (now : Nat)
deriving DecidableEq, Repr

/-- Apply one operation; a failed request leaves the room as the handler
left it (for `/place-bid` and `/place-blind-bid` that may include the
auto-created session). -/
def applyOp (csv : List Player) (room : Room) : Op → Room
  | .selectPlayerOp p price t now =>
    match selectPlayer csv now room p price t with
    | .ok r => r
    | .error _ => room
  | .placeBidOp p a t now bidId => (placeBid csv now bidId room p a t).2
  | .placeBlindBidOp p a t now bidId => (placeBlindBid csv now bidId room p a t).2
  | .startBiddingOp p now =>
    match startBidding csv now room p with
    | .ok r => r
    | .error _ => room
  | .startBlindBiddingOp p now =>
    match startBlindBidding csv now room p with
    | .ok r => r
    | .error _ => room
  | .closeBiddingOp p bt now =>
    match closeBidding csv now room p bt with
    | .ok r => r
    | .error _ => room
  | .timerFireRegular p now => autoAwardPlayer csv now room p
  | .timerFireBlind p now => autoAwardBlindBidPlayer csv now room p

/-- Apply a sequence of operations in order. -/
def applyOps (csv : List Player) (room : Room) (ops : List Op) : Room :=
  ops.foldl (applyOp csv) room

/-! ## C1: budget conservation -/

/-- Total purchase prices recorded on one team's roster. -/
def rosterSpend (t : Team) : Money :=
  (t.players.map (fun pp => pp.boughtPrice)).sum

/-- A team's budget plus what it has recorded as spent. -/
def teamNet (t : Team) : Money :=
  t.budget + rosterSpend t

/-- Sum of `teamNet` over an association list of teams. -/
def usersNet (m : List (String × Team)) : Money :=
  (m.map (fun p => teamNet p.2)).sum

/-- Sum of remaining budgets over a room's teams. -/
def totalBudgets (r : Room) : Money :=
  (r.users.map (fun p => p.2.budget)).sum

/-- Sum of all purchase prices across all of a room's rosters. -/
def totalPurchases (r : Room) : Money :=
  (r.users.map (fun p => rosterSpend p.2)).sum

lemma totalBudgets_add_totalPurchases (r : Room) :
    totalBudgets r + totalPurchases r = usersNet r.users := by
  unfold totalBudgets totalPurchases usersNet teamNet
  induction r.users with
  | nil => simp
  | cons q m ih =>
    simp only [List.map_cons, List.sum_cons]
    rw [← ih]
    ring

lemma usersNet_updateKey (m : List (String × Team)) (k : String) (f : Team → Team)
    (hf : ∀ t, teamNet (f t) = teamNet t) :
    usersNet (updateKey m k f) = usersNet m := by
  induction m with
  | nil => rfl
  | cons q m ih =>
    simp only [usersNet, updateKey, List.map_cons, List.sum_cons, List.map_map,
      beq_iff_eq] at ih ⊢
    by_cases h : q.1 = k
    · simp [h, hf, ih]
    · simp [h, ih]

lemma length_updateKey {α : Type} (m : List (String × α)) (k : String) (f : α → α) :
    (updateKey m k f).length = m.length := by
  unfold updateKey; exact m.length_map _

lemma teamNet_award (t : Team) (pp : PurchasedPlayer) (amount : Money)
    (hpp : pp.boughtPrice = amount) :
    teamNet { t with budget := t.budget - amount, players := t.players ++ [pp] } =
      teamNet t := by
  unfold teamNet rosterSpend
  simp only [List.map_append, List.sum_append, List.map_cons, List.map_nil,
    List.sum_cons, List.sum_nil, hpp]
  ring

/-- Projections preserved by every branch of `placeBidOnSession`. -/
lemma placeBidOnSession_shape (now : Nat) (bidId : String) (room1 : Room)
    (playerName : String) (bidAmount : Money) (bidderTeam : String) (pbd : BidSession) :
    ∃ cb la, (placeBidOnSession now bidId room1 playerName bidAmount bidderTeam pbd).2 =
      { room1 with currentBids := cb, lastActivity := la } := by
  unfold placeBidOnSession
  split
  · exact ⟨room1.currentBids, room1.lastActivity, rfl⟩
  split
  · exact ⟨room1.currentBids, room1.lastActivity, rfl⟩
  split
  · exact ⟨room1.currentBids, room1.lastActivity, rfl⟩
  · exact ⟨_, _, rfl⟩

lemma placeBid_shape (csv : List Player) (now : Nat) (bidId : String) (room : Room)
    (playerName : String) (bidAmount : Money) (bidderTeam : String) :
    ∃ cb la, (placeBid csv now bidId room playerName bidAmount bidderTeam).2 =
      { room with currentBids := cb, lastActivity := la } := by
  unfold placeBid
  split
  · exact ⟨room.currentBids, room.lastActivity, rfl⟩
  split
  · exact ⟨room.currentBids, room.lastActivity, rfl⟩
  split
  · exact ⟨room.currentBids, room.lastActivity, rfl⟩
  split
  · exact ⟨room.currentBids, room.lastActivity, rfl⟩
  split
  · exact ⟨room.currentBids, room.lastActivity, rfl⟩
  split
  · exact placeBidOnSession_shape ..
  · exact placeBidOnSession_shape ..

lemma placeBlindBidOnSession_shape (now : Nat) (bidId : String) (room1 : Room)
    (playerName : String) (bidAmount : Money) (bidderTeam : String) (pbd : BidSession) :
    ∃ bb la, (placeBlindBidOnSession now bidId room1 playerName bidAmount bidderTeam pbd).2 =
      { room1 with blindBids := bb, lastActivity := la } := by
  unfold placeBlindBidOnSession
  split
  · exact ⟨room1.blindBids, room1.lastActivity, rfl⟩
  split
  · exact ⟨room1.blindBids, room1.lastActivity, rfl⟩
  · exact ⟨_, _, rfl⟩

lemma placeBlindBid_shape (csv : List Player) (now : Nat) (bidId : String) (room : Room)
    (playerName : String) (bidAmount : Money) (bidderTeam : String) :
    ∃ bb la, (placeBlindBid csv now bidId room playerName bidAmount bidderTeam).2 =
      { room with blindBids := bb, lastActivity := la } := by
  unfold placeBlindBid
  split
  · exact ⟨room.blindBids, room.lastActivity, rfl⟩
  split
  · exact ⟨room.blindBids, room.lastActivity, rfl⟩
  split
  · exact ⟨room.blindBids, room.lastActivity, rfl⟩
  split
  · exact ⟨room.blindBids, room.lastActivity, rfl⟩
  split
  · exact ⟨room.blindBids, room.lastActivity, rfl⟩
  split
  · exact placeBlindBidOnSession_shape ..
  · exact placeBlindBidOnSession_shape ..

lemma selectPlayer_net (csv : List Player) (now : Nat) (room : Room)
    (playerName : String) (soldPrice : Money) (buyerTeam : String) (r' : Room)
    (h : selectPlayer csv now room playerName soldPrice buyerTeam = .ok r') :
    usersNet r'.users = usersNet room.users ∧
    r'.users.length = room.users.length ∧
    r'.budgetPerUser = room.budgetPerUser := by
  unfold selectPlayer at h
  split at h
  · exact absurd h (by simp)
  split at h
  · exact absurd h (by simp)
  split at h
  · exact absurd h (by simp)
  split at h
  · exact absurd h (by simp)
  split at h
  · exact absurd h (by simp)
  · cases h
    refine ⟨?_, ?_, rfl⟩
    · dsimp only
      refine usersNet_updateKey _ _ _ ?_
      intro t
      exact teamNet_award t _ soldPrice rfl
    · dsimp only
      exact length_updateKey ..

lemma autoAwardPlayer_net (csv : List Player) (now : Nat) (room : Room)
    (playerName : String) :
    usersNet (autoAwardPlayer csv now room playerName).users = usersNet room.users ∧
    (autoAwardPlayer csv now room playerName).users.length = room.users.length ∧
    (autoAwardPlayer csv now room playerName).budgetPerUser = room.budgetPerUser := by
  unfold autoAwardPlayer
  split
  · exact ⟨rfl, rfl, rfl⟩
  split
  · exact ⟨rfl, rfl, rfl⟩
  dsimp only
  split
  · exact ⟨rfl, rfl, rfl⟩
  split
  · split
    · refine ⟨?_, ?_, rfl⟩
      · dsimp only
        refine usersNet_updateKey _ _ _ ?_
        intro t
        exact teamNet_award t _ _ rfl
      · dsimp only
        exact length_updateKey ..
    · exact ⟨rfl, rfl, rfl⟩
  · exact ⟨rfl, rfl, rfl⟩

lemma autoAwardBlindBidPlayer_net (csv : List Player) (now : Nat) (room : Room)
    (playerName : String) :
    usersNet (autoAwardBlindBidPlayer csv now room playerName).users = usersNet room.users ∧
    (autoAwardBlindBidPlayer csv now room playerName).users.length = room.users.length ∧
    (autoAwardBlindBidPlayer csv now room playerName).budgetPerUser = room.budgetPerUser := by
  unfold autoAwardBlindBidPlayer
  split
  · exact ⟨rfl, rfl, rfl⟩
  split
  · exact ⟨rfl, rfl, rfl⟩
  dsimp only
  split
  · exact ⟨rfl, rfl, rfl⟩
  split
  · split
    · refine ⟨?_, ?_, rfl⟩
      · dsimp only
        refine usersNet_updateKey _ _ _ ?_
        intro t
        exact teamNet_award t _ _ rfl
      · dsimp only
        exact length_updateKey ..
    · exact ⟨rfl, rfl, rfl⟩
  · exact ⟨rfl, rfl, rfl⟩

lemma startBidding_users (csv : List Player) (now : Nat) (room : Room)
    (playerName : String) (r' : Room)
    (h : startBidding csv now room playerName = .ok r') :
    r'.users = room.users ∧ r'.budgetPerUser = room.budgetPerUser := by
  unfold startBidding at h
  split at h
  · exact absurd h (by simp)
  split at h
  · exact absurd h (by simp)
  split at h
  · exact absurd h (by simp)
  · cases h; exact ⟨rfl, rfl⟩

lemma startBlindBidding_users (csv : List Player) (now : Nat) (room : Room)
    (playerName : String) (r' : Room)
    (h : startBlindBidding csv now room playerName = .ok r') :
    r'.users = room.users ∧ r'.budgetPerUser = room.budgetPerUser := by
  unfold startBlindBidding at h
  split at h
  · exact absurd h (by simp)
  split at h
  · exact absurd h (by simp)
  split at h
  · exact absurd h (by simp)
  · cases h; exact ⟨rfl, rfl⟩

lemma closeBidding_net (csv : List Player) (now : Nat) (room : Room)
    (playerName : String) (bt : BiddingType) (r' : Room)
    (h : closeBidding csv now room playerName bt = .ok r') :
    usersNet r'.users = usersNet room.users ∧
    r'.users.length = room.users.length ∧
    r'.budgetPerUser = room.budgetPerUser := by
  unfold closeBidding at h
  rcases bt with _ | _ <;> dsimp only at h
  · split at h
    · exact absurd h (by simp)
    split at h
    · exact absurd h (by simp)
    · cases h; exact autoAwardPlayer_net ..
  · split at h
    · exact absurd h (by simp)
    split at h
    · exact absurd h (by simp)
    · cases h; exact autoAwardBlindBidPlayer_net ..

lemma applyOp_net (csv : List Player) (room : Room) (op : Op) :
    usersNet (applyOp csv room op).users = usersNet room.users ∧
    (applyOp csv room op).users.length = room.users.length ∧
    (applyOp csv room op).budgetPerUser = room.budgetPerUser := by
  cases op with
  | selectPlayerOp p price t now =>
    dsimp only [applyOp]
    split
    · exact selectPlayer_net _ _ _ _ _ _ _ (by assumption)
    · exact ⟨rfl, rfl, rfl⟩
  | placeBidOp p a t now bidId =>
    obtain ⟨cb, la, h⟩ := placeBid_shape csv now bidId room p a t
    dsimp only [applyOp]
    rw [h]
    exact ⟨rfl, rfl, rfl⟩
  | placeBlindBidOp p a t now bidId =>
    obtain ⟨bb, la, h⟩ := placeBlindBid_shape csv now bidId room p a t
    dsimp only [applyOp]
    rw [h]
    exact ⟨rfl, rfl, rfl⟩
  | startBiddingOp p now =>
    dsimp only [applyOp]
    split
    · obtain ⟨h1, h2⟩ := startBidding_users _ _ _ _ _ (by assumption)
      rw [h1, h2]; exact ⟨rfl, rfl, rfl⟩
    · exact ⟨rfl, rfl, rfl⟩
  | startBlindBiddingOp p now =>
    dsimp only [applyOp]
    split
    · obtain ⟨h1, h2⟩ := startBlindBidding_users _ _ _ _ _ (by assumption)
      rw [h1, h2]; exact ⟨rfl, rfl, rfl⟩
    · exact ⟨rfl, rfl, rfl⟩
  | closeBiddingOp p bt now =>
    dsimp only [applyOp]
    split
    · exact closeBidding_net _ _ _ _ _ _ (by assumption)
    · exact ⟨rfl, rfl, rfl⟩
  | timerFireRegular p now => exact autoAwardPlayer_net ..
  | timerFireBlind p now => exact autoAwardBlindBidPlayer_net ..

lemma applyOps_net (csv : List Player) (room : Room) (ops : List Op) :
    usersNet (applyOps csv room ops).users = usersNet room.users ∧
    (applyOps csv room ops).users.length = room.users.length ∧
    (applyOps csv room ops).budgetPerUser = room.budgetPerUser := by
  induction ops generalizing room with
  | nil => exact ⟨rfl, rfl, rfl⟩
  | cons op ops ih =>
    have h1 := applyOp_net csv room op
    have h2 := ih (applyOp csv room op)
    simp only [applyOps, List.foldl_cons] at *
    exact ⟨h2.1.trans h1.1, h2.2.1.trans h1.2.1, h2.2.2.trans h1.2.2⟩

lemma mkRoom_users_net (m : List (String × Team)) (budgetPerUser : Money)
    (users : List String)
    (hm : ∀ q ∈ m, teamNet q.2 = budgetPerUser) :
    ∀ q ∈ users.foldl
        (fun acc u => insertKey acc u { username := u, budget := budgetPerUser, players := [] }) m,
      teamNet q.2 = budgetPerUser := by
  induction users generalizing m with
  | nil => exact hm
  | cons u users ih =>
    refine ih _ ?_
    intro q hq
    unfold insertKey at hq
    dsimp only at hq
    split at hq
    · unfold updateKey at hq
      obtain ⟨p, hp, hpq⟩ := List.mem_map.mp hq
      by_cases hk : p.1 == u
      · simp only [hk, if_pos] at hpq
        subst hpq
        simp [teamNet, rosterSpend]
      · simp only [hk] at hpq
        simp only [Bool.false_eq_true, if_false] at hpq
        subst hpq
        exact hm p hp
    · rcases List.mem_append.mp hq with h | h
      · exact hm q h
      · simp only [List.mem_singleton] at h
        subst h
        simp [teamNet, rosterSpend]

lemma usersNet_const (m : List (String × Team)) (b : Money)
    (hm : ∀ q ∈ m, teamNet q.2 = b) :
    usersNet m = (m.length : Int) * b := by
  unfold usersNet
  induction m with
  | nil => simp
  | cons q m ih =>
    simp only [List.map_cons, List.sum_cons, List.length_cons]
    rw [hm q (by simp), ih (fun p hp => hm p (by simp [hp]))]
    push_cast
    ring

/-- **C1.** For every room and every sequence of engine operations (direct
purchase via `/select-player`, bid placement, session starts, manual
closes, and both timer-driven award paths), the sum of remaining team
budgets plus the sum of all recorded purchase prices across all rosters
equals the room's initial total budget: the number of teams times the
configured per-team budget.  Every purchase debits the buying team by
exactly the recorded price and nothing else touches any budget. -/
theorem budget_conservation (csv : List Player) (roomId : String)
    (users : List String) (budgetPerUser : Money) (now : Nat) (ops : List Op) :
    totalBudgets (applyOps csv (mkRoom roomId users budgetPerUser now) ops) +
      totalPurchases (applyOps csv (mkRoom roomId users budgetPerUser now) ops) =
    ((mkRoom roomId users budgetPerUser now).users.length : Int) * budgetPerUser := by
  have hconst : ∀ q ∈ (mkRoom roomId users budgetPerUser now).users,
      teamNet q.2 = budgetPerUser :=
    mkRoom_users_net [] budgetPerUser users (by intro q hq; simp at hq)
  have hinit : usersNet (mkRoom roomId users budgetPerUser now).users =
      ((mkRoom roomId users budgetPerUser now).users.length : Int) * budgetPerUser :=
    usersNet_const _ _ hconst
  have hops := applyOps_net csv (mkRoom roomId users budgetPerUser now) ops
  rw [totalBudgets_add_totalPurchases, hops.1, hinit]

/-! ## Properties of the stable descending sort -/

lemma mem_insertByDesc {α : Type} (key : α → Int) (x y : α) (l : List α) :
    y ∈ insertByDesc key x l ↔ y = x ∨ y ∈ l := by
  induction l with
  | nil => simp [insertByDesc]
  | cons h t ih =>
    unfold insertByDesc
    split
    · simp
    · simp only [List.mem_cons, ih]
      tauto

lemma mem_sortByDesc {α : Type} (key : α → Int) (y : α) (l : List α) :
    y ∈ sortByDesc key l ↔ y ∈ l := by
  induction l with
  | nil => simp [sortByDesc]
  | cons x t ih =>
    simp only [sortByDesc, List.foldr_cons] at *
    rw [mem_insertByDesc, ih, List.mem_cons]

lemma pairwise_insertByDesc {α : Type} (key : α → Int) (x : α) (l : List α)
    (hl : l.Pairwise (fun a b => key b ≤ key a)) :
    (insertByDesc key x l).Pairwise (fun a b => key b ≤ key a) := by
  induction l with
  | nil => simp [insertByDesc]
  | cons h t ih =>
    rw [List.pairwise_cons] at hl
    unfold insertByDesc
    split
    · refine List.pairwise_cons.mpr ⟨?_, List.pairwise_cons.mpr hl⟩
      intro y hy
      rcases List.mem_cons.mp hy with rfl | hy
      · assumption
      · exact le_trans (hl.1 y hy) (by assumption)
    · refine List.pairwise_cons.mpr ⟨?_, ih hl.2⟩
      intro y hy
      rcases (mem_insertByDesc key x y t).mp hy with rfl | hy
      · omega
      · exact hl.1 y hy

lemma pairwise_sortByDesc {α : Type} (key : α → Int) (l : List α) :
    (sortByDesc key l).Pairwise (fun a b => key b ≤ key a) := by
  induction l with
  | nil => simp [sortByDesc]
  | cons x t ih =>
    simp only [sortByDesc, List.foldr_cons] at *
    exact pairwise_insertByDesc key x _ ih

/-- The head of the stably sorted list carries a maximal key. -/
lemma head_sortByDesc_ge {α : Type} (key : α → Int) (l : List α) (w : α)
    (hw : (sortByDesc key l).head? = some w) :
    ∀ x ∈ l, key x ≤ key w := by
  intro x hx
  have hx' : x ∈ sortByDesc key l := (mem_sortByDesc key x l).mpr hx
  have hp := pairwise_sortByDesc key l
  cases hs : sortByDesc key l with
  | nil => rw [hs] at hx'; cases hx'
  | cons w' rest =>
    rw [hs] at hw hx' hp
    simp only [List.head?_cons, Option.some.injEq] at hw
    subst hw
    rcases List.mem_cons.mp hx' with rfl | hx'
    · exact le_refl _
    · exact (List.pairwise_cons.mp hp).1 x hx'

lemma sortByDesc_cons {α : Type} (key : α → Int) (x : α) (t : List α) :
    sortByDesc key (x :: t) = insertByDesc key x (sortByDesc key t) := rfl

lemma insertByDesc_cons {α : Type} (key : α → Int) (x h : α) (t : List α) :
    insertByDesc key x (h :: t) =
      if key h ≤ key x then x :: h :: t else h :: insertByDesc key x t := rfl

lemma head_sortByDesc_mem {α : Type} (key : α → Int) (l : List α) (w : α)
    (hw : (sortByDesc key l).head? = some w) : w ∈ l := by
  refine (mem_sortByDesc key w l).mp ?_
  cases hs : sortByDesc key l with
  | nil => rw [hs] at hw; cases hw
  | cons w' rest =>
    rw [hs] at hw
    simp only [List.head?_cons, Option.some.injEq] at hw
    subst hw
    exact List.mem_cons_self _ _

/-- Stability at the top: the head of the sorted list is the *first*
element (in original order) carrying the maximal key. -/
lemma head_sortByDesc_first_max {α : Type} (key : α → Int) (l : List α)
    (a : Int) (w : α)
    (hmax : ∀ x ∈ l, key x ≤ a)
    (hfind : l.find? (fun x => key x == a) = some w) :
    (sortByDesc key l).head? = some w := by
  induction l with
  | nil => simp at hfind
  | cons x t ih =>
    rw [List.find?_cons] at hfind
    rw [sortByDesc_cons]
    by_cases hx : key x = a
    · have hbx : (key x == a) = true := by simpa using hx
      rw [hbx] at hfind
      simp only [Option.some.injEq] at hfind
      subst hfind
      cases hs : sortByDesc key t with
      | nil => rfl
      | cons h rest =>
        have hh : h ∈ t := by
          have hmem : h ∈ sortByDesc key t := by rw [hs]; exact List.mem_cons_self _ _
          exact (mem_sortByDesc key h t).mp hmem
        have hle : key h ≤ key x := by rw [hx]; exact hmax h (by simp [hh])
        rw [insertByDesc_cons, if_pos hle]
        rfl
    · have hbx : (key x == a) = false := by simpa using hx
      rw [hbx] at hfind
      simp only at hfind
      have ihh := ih (fun y hy => hmax y (by simp [hy])) hfind
      have hwk : key w = a := by
        have hps := List.find?_some hfind
        simpa using hps
      cases hs : sortByDesc key t with
      | nil => rw [hs] at ihh; cases ihh
      | cons h rest =>
        rw [hs] at ihh
        simp only [List.head?_cons, Option.some.injEq] at ihh
        subst ihh
        have hxa : key x < a := lt_of_le_of_ne (hmax x (by simp)) hx
        rw [insertByDesc_cons, if_neg (by omega)]
        rfl

/-! ## C5: strictly ascending regular bids -/

lemma foldl_max_le_self (l : List Bid) (init : Money) :
    init ≤ l.foldl (fun m x => max m x.amount) init := by
  induction l generalizing init with
  | nil => simp
  | cons x t ih => exact le_trans (le_max_left _ _) (ih _)

lemma amount_le_foldl_max (l : List Bid) (init : Money) (b : Bid) (hb : b ∈ l) :
    b.amount ≤ l.foldl (fun m x => max m x.amount) init := by
  induction l generalizing init with
  | nil => cases hb
  | cons x t ih =>
    rcases List.mem_cons.mp hb with rfl | h
    · exact le_trans (le_max_right _ _) (foldl_max_le_self t _)
    · exact ih _ h

/-- Every recorded bid is bounded by `currentHighest`. -/
lemma le_currentHighest (bids : List Bid) (b : Bid) (hb : b ∈ bids) :
    b.amount ≤ currentHighest bids := by
  cases bids with
  | nil => cases hb
  | cons x t =>
    unfold currentHighest
    rcases List.mem_cons.mp hb with rfl | h
    · exact foldl_max_le_self t _
    · exact amount_le_foldl_max t _ b h

lemma lookup_updateKey_self {α : Type} (m : List (String × α)) (k : String)
    (f : α → α) :
    lookup (updateKey m k f) k = (lookup m k).map f := by
  induction m with
  | nil => rfl
  | cons q m ih =>
    by_cases h : q.1 = k
    · simp [lookup, updateKey, List.find?_cons, h]
    · have hb : (q.1 == k) = false := by simpa using h
      simp only [lookup, updateKey, List.map_cons, List.find?_cons, hb,
        Bool.false_eq_true, if_false] at ih ⊢
      exact ih

/-- Successful `placeBid` tail: the bid strictly beats the prior highest. -/
lemma placeBidOnSession_ok_gt (now : Nat) (bidId : String) (room1 : Room)
    (playerName : String) (bidAmount : Money) (bidderTeam : String)
    (pbd : BidSession)
    (h : (placeBidOnSession now bidId room1 playerName bidAmount bidderTeam pbd).1 =
      .ok ()) :
    currentHighest pbd.bids < bidAmount := by
  unfold placeBidOnSession at h
  split at h
  · simp at h
  split at h
  · simp at h
  split at h
  · simp at h
  · rename_i h3
    exact not_le.mp h3

/-- **C5.**  Regular-session bids are strictly ascending.  First conjunct:
once all earlier validations pass, a bid not exceeding the current highest
is rejected with `BidTooLow` (ties rejected).  Second conjunct: any
*accepted* bid on an existing session strictly exceeds every bid already
recorded on that session — hence along any sequence of accepted bids the
amounts are strictly increasing — and it is appended at the end of the
session's bid list. -/
theorem regular_bids_strictly_ascending :
    (∀ (csv : List Player) (now : Nat) (bidId : String) (room : Room)
       (playerName : String) (bidAmount : Money) (bidderTeam : String)
       (s : BidSession) (team : Team) (player : Player),
      lookup room.users bidderTeam = some team →
      bidAmount ≤ team.budget →
      team.players.length < MAX_PLAYERS_PER_TEAM →
      csv.find? (fun p => p.name == playerName) = some player →
      setHas room.soldPlayers playerName = false →
      lookup room.currentBids playerName = some s →
      s.status = .active →
      baseFloorViolated s.basePrice bidAmount = false →
      bidAmount ≤ currentHighest s.bids →
      (placeBid csv now bidId room playerName bidAmount bidderTeam).1 =
        .error .BidTooLow) ∧
    (∀ (csv : List Player) (now : Nat) (bidId : String) (room : Room)
       (playerName : String) (bidAmount : Money) (bidderTeam : String)
       (s : BidSession),
      lookup room.currentBids playerName = some s →
      (placeBid csv now bidId room playerName bidAmount bidderTeam).1 = .ok () →
      (∀ b ∈ s.bids, b.amount < bidAmount) ∧
      lookup ((placeBid csv now bidId room playerName bidAmount bidderTeam).2).currentBids
          playerName =
        some { s with
          bids := s.bids ++ [{ bidderTeam := bidderTeam, amount := bidAmount,
                               timestamp := now, bidId := bidId }]
          lastBidTime := some now }) := by
  constructor
  · intro csv now bidId room playerName bidAmount bidderTeam s team player
      hteam hbudget hroster hplayer hsold hsess hactive hfloor hle
    unfold placeBid
    rw [hteam]
    dsimp only
    rw [if_neg (not_lt.mpr hbudget), if_neg (not_le.mpr hroster), hplayer]
    dsimp only
    rw [hsold, if_neg (by simp), hsess]
    dsimp only
    unfold placeBidOnSession
    rw [if_neg (by simp [hactive]), hfloor, if_neg (by simp), if_pos hle]
  · intro csv now bidId room playerName bidAmount bidderTeam s hsess hok
    unfold placeBid at hok ⊢
    split at hok
    · simp at hok
    rename_i team hteam
    split at hok
    · simp at hok
    rename_i h1
    split at hok
    · simp at hok
    rename_i h2
    split at hok
    · simp at hok
    rename_i player hplayer
    split at hok
    · simp at hok
    rename_i h3
    split at hok
    next pbd hpbd =>
      have hps : pbd = s := Option.some.inj (hpbd.symm.trans hsess)
      subst hps
      refine ⟨?_, ?_⟩
      · intro b hb
        exact lt_of_le_of_lt (le_currentHighest pbd.bids b hb)
          (placeBidOnSession_ok_gt _ _ _ _ _ _ _ hok)
      · rw [if_neg h1, if_neg h2, if_neg h3]
        unfold placeBidOnSession at hok ⊢
        split at hok
        · simp at hok
        rename_i k1
        split at hok
        · simp at hok
        rename_i k2
        split at hok
        · simp at hok
        rename_i k3
        rw [if_neg k1, if_neg k2, if_neg k3]
        dsimp only
        rw [lookup_updateKey_self, hsess]
        rfl
    next hpbd =>
      rw [hsess] at hpbd
      cases hpbd

/-! ### Concrete fixtures for evaluating the model -/

/-- A small concrete catalog: two priced players and one blind-pool player. -/
def demoCsv : List Player :=
  [{ name := "P", team := "CSK", type := .BAT, basePrice := some 100 },
   { name := "Q", team := "MI", type := .BOWL, basePrice := some 50 },
   { name := "B", team := "RCB", type := .AR, basePrice := none }]

/-- A room in which a regular session for "P" is active with one bid of 200
by team "Z". -/
def c5Room : Room :=
  applyOps demoCsv (mkRoom "r5" ["A", "Z"] 100000 0)
    [.startBiddingOp "P" 1, .placeBidOp "P" 200 "Z" 2 "b1"]

/-- The session stored for "P" inside `c5Room`. -/
def c5Session : BidSession :=
  { playerName := "P", playerType := .BAT, basePrice := some 100,
    bids := [{ bidderTeam := "Z", amount := 200, timestamp := 2, bidId := "b1" }],
    biddingStartTime := 1, lastBidTime := some 2, status := .active,
    closedAt := none, soldTo := none, finalPrice := none }

/-- **C5 check.**  Concrete instance: with the highest bid at 200, a bid of
150 is rejected as `BidTooLow`, and the accepted bid of 300 exceeds every
recorded bid. -/
theorem regular_bids_strictly_ascending_check :
    (placeBid demoCsv 3 "b2" c5Room "P" 150 "A").1 = .error .BidTooLow ∧
    (∀ b ∈ c5Session.bids, b.amount < 300) := by
  constructor
  · exact regular_bids_strictly_ascending.1 demoCsv 3 "b2" c5Room "P" 150 "A"
      c5Session { username := "A", budget := 100000, players := [] }
      { name := "P", team := "CSK", type := .BAT, basePrice := some 100 }
      rfl (by decide) (by decide) rfl rfl rfl rfl rfl (by decide)
  · exact fun b hb =>
      ((regular_bids_strictly_ascending.2 demoCsv 4 "b3" c5Room "P" 300 "A"
        c5Session rfl rfl).1) b hb

/-! ## C4: placeBid with no session -/

lemma lookup_append_new {α : Type} (m : List (String × α)) (k : String) (v : α)
    (h0 : lookup m k = none) :
    lookup (m ++ [(k, v)]) k = some v := by
  induction m with
  | nil => simp [lookup, List.find?_cons]
  | cons q m ih =>
    by_cases h : q.1 = k
    · exfalso
      simp [lookup, List.find?_cons, h] at h0
    · have hb : (q.1 == k) = false := by simpa using h
      simp only [lookup, List.cons_append, List.find?_cons, hb] at ih h0 ⊢
      exact ih h0

/-- **C4 counterexample.**  On a fresh room with no session for "P",
`placeBid` *succeeds* and leaves a newly created session in the room's
session table — the claimed `SessionNotActive` rejection with unchanged
state does not happen. -/
theorem placeBid_no_session_not_rejected :
    (placeBid demoCsv 1 "b1" (mkRoom "r4" ["A", "Z"] 100000 0) "P" 500 "A").1 =
      .ok () ∧
    (lookup ((placeBid demoCsv 1 "b1" (mkRoom "r4" ["A", "Z"] 100000 0)
        "P" 500 "A").2).currentBids "P").isSome = true := by
  exact ⟨rfl, rfl⟩

/-- **C4 (amended).**  When no session exists for the player and the
team/budget/roster/catalog/sold validations pass, `placeBid` does not fail
with `SessionNotActive`: it auto-creates an `active` session for the
player (started at the call's timestamp) which remains in the session
table even when the bid itself is subsequently rejected. -/
theorem placeBid_autocreates_session
    (csv : List Player) (now : Nat) (bidId : String) (room : Room)
    (playerName : String) (bidAmount : Money) (bidderTeam : String)
    (team : Team) (player : Player)
    (hteam : lookup room.users bidderTeam = some team)
    (hbudget : bidAmount ≤ team.budget)
    (hroster : team.players.length < MAX_PLAYERS_PER_TEAM)
    (hplayer : csv.find? (fun p => p.name == playerName) = some player)
    (hsold : setHas room.soldPlayers playerName = false)
    (hsess : lookup room.currentBids playerName = none) :
    ∃ s, lookup ((placeBid csv now bidId room playerName bidAmount
          bidderTeam).2).currentBids playerName = some s ∧
      s.status = .active ∧
      s.biddingStartTime = now ∧
      (placeBid csv now bidId room playerName bidAmount bidderTeam).1 ≠
        .error .SessionNotActive := by
  unfold placeBid
  rw [hteam]
  dsimp only
  rw [if_neg (not_lt.mpr hbudget), if_neg (not_le.mpr hroster), hplayer]
  dsimp only
  rw [hsold, if_neg (by simp), hsess]
  dsimp only
  unfold placeBidOnSession
  rw [if_neg (by simp)]
  split
  · dsimp only
    refine ⟨_, lookup_append_new _ _ _ hsess, rfl, rfl, ?_⟩
    simp
  split
  · dsimp only
    refine ⟨_, lookup_append_new _ _ _ hsess, rfl, rfl, ?_⟩
    simp
  · dsimp only
    rw [lookup_updateKey_self, lookup_append_new _ _ _ hsess]
    refine ⟨_, rfl, rfl, rfl, ?_⟩
    simp

/-- **C4 check.**  The amended statement evaluated on the counterexample
input. -/
theorem placeBid_autocreates_session_check :
    ∃ s, lookup ((placeBid demoCsv 1 "b9" (mkRoom "r4" ["A", "Z"] 100000 0)
          "P" 500 "A").2).currentBids "P" = some s ∧
      s.status = .active ∧
      s.biddingStartTime = 1 ∧
      (placeBid demoCsv 1 "b9" (mkRoom "r4" ["A", "Z"] 100000 0) "P" 500 "A").1 ≠
        .error .SessionNotActive :=
  placeBid_autocreates_session demoCsv 1 "b9" (mkRoom "r4" ["A", "Z"] 100000 0)
    "P" 500 "A" { username := "A", budget := 100000, players := [] }
    { name := "P", team := "CSK", type := .BAT, basePrice := some 100 }
    rfl (by decide) (by decide) rfl rfl rfl

/-! ## C7: resolving a terminal session -/

/-- A room whose regular session for "P" was manually closed (no bids). -/
def c7Room : Room :=
  applyOps demoCsv (mkRoom "r7" ["A", "Z"] 100000 0)
    [.startBiddingOp "P" 1, .closeBiddingOp "P" .regular 2]

/-- The terminal (closed, no-sale) session stored in `c7Room`. -/
def c7ClosedSession : BidSession :=
  { playerName := "P", playerType := .BAT, basePrice := some 100,
    bids := [], biddingStartTime := 1, lastBidTime := none, status := .closed,
    closedAt := some 2, soldTo := none, finalPrice := none }

/-- **C7 counterexample.**  Manually closing an already-terminal session is
*not* a no-op success: `/close-bidding` rejects it with an error (the
claim says resolving a terminal session is "a no-op, not an error"). -/
theorem manual_close_terminal_errors :
    closeBidding demoCsv 3 c7Room "P" .regular = .error .AlreadyClosed := rfl

/-- **C7 (amended).**  Re-running the *timer* resolution on a session that
is absent or already terminal is a pure no-op (no budget, roster, sold-set
or session change), for both session kinds; the *manual* close of a
terminal session is instead rejected with an `AlreadyClosed` error — which
also leaves the room unchanged, since `closeBidding` mutates nothing
before that check. -/
theorem terminal_resolution_idempotent :
    (∀ (csv : List Player) (now : Nat) (room : Room) (p : String) (s : BidSession),
      lookup room.currentBids p = some s → s.status ≠ .active →
      autoAwardPlayer csv now room p = room) ∧
    (∀ (csv : List Player) (now : Nat) (room : Room) (p : String) (s : BidSession),
      lookup room.blindBids p = some s → s.status ≠ .active →
      autoAwardBlindBidPlayer csv now room p = room) ∧
    (∀ (csv : List Player) (now : Nat) (room : Room) (p : String) (s : BidSession),
      lookup room.currentBids p = some s → s.status ≠ .active →
      closeBidding csv now room p .regular = .error .AlreadyClosed) ∧
    (∀ (csv : List Player) (now : Nat) (room : Room) (p : String) (s : BidSession),
      lookup room.blindBids p = some s → s.status ≠ .active →
      closeBidding csv now room p .blind = .error .AlreadyClosed) := by
  refine ⟨?_, ?_, ?_, ?_⟩
  · intro csv now room p s hs hterm
    unfold autoAwardPlayer
    rw [hs]
    dsimp only
    rw [if_pos hterm]
  · intro csv now room p s hs hterm
    unfold autoAwardBlindBidPlayer
    rw [hs]
    dsimp only
    rw [if_pos hterm]
  · intro csv now room p s hs hterm
    unfold closeBidding
    rw [hs]
    dsimp only
    rw [if_pos hterm]
  · intro csv now room p s hs hterm
    unfold closeBidding
    rw [hs]
    dsimp only
    rw [if_pos hterm]

/-- **C7 check.**  On the concrete closed session: a late timer fire
leaves the room unchanged and a repeated manual close errors. -/
theorem terminal_resolution_idempotent_check :
    autoAwardPlayer demoCsv 5 c7Room "P" = c7Room ∧
    closeBidding demoCsv 5 c7Room "P" .regular = .error .AlreadyClosed := by
  constructor
  · exact terminal_resolution_idempotent.1 demoCsv 5 c7Room "P" c7ClosedSession
      rfl (by decide)
  · exact terminal_resolution_idempotent.2.2.1 demoCsv 5 c7Room "P" c7ClosedSession
      rfl (by decide)

/-! ## C6: resolution awards the greatest bid or closes with no sale -/

lemma setHas_setAdd_self (s : List String) (x : String) :
    setHas (setAdd s x) x = true := by
  unfold setHas setAdd
  by_cases h : s.contains x
  · have hm : x ∈ s := by simpa using h
    simp [hm]
  · simp only [h, Bool.false_eq_true, if_false]
    simp

/-- Full characterisation of `autoAwardPlayer` on an `active` session:
(1) any selected winner carries a maximal amount; (2) with no bids the
session closes and the ledger is untouched; (3) a winner passing the
at-resolution budget/roster re-validation is awarded in full; (4) a winner
failing it (or with no resolvable team/player) yields `closed` with no
sale and an untouched ledger — no fallback to a lower bid. -/
lemma autoAwardPlayer_resolution (csv : List Player) (now : Nat) (room : Room)
    (p : String) (s : BidSession)
    (hs : lookup room.currentBids p = some s) (hact : s.status = .active) :
    (∀ w, (sortBidsDesc s.bids).head? = some w → ∀ b ∈ s.bids, b.amount ≤ w.amount) ∧
    ((sortBidsDesc s.bids).head? = none →
      (autoAwardPlayer csv now room p).users = room.users ∧
      (autoAwardPlayer csv now room p).soldPlayers = room.soldPlayers ∧
      lookup (autoAwardPlayer csv now room p).currentBids p =
        some { s with
          status := .closed
          closedAt := some now
          bids := sortBidsDesc s.bids }) ∧
    (∀ w team player, (sortBidsDesc s.bids).head? = some w →
      lookup room.users w.bidderTeam = some team →
      csv.find? (fun q => q.name == p) = some player →
      w.amount ≤ team.budget → team.players.length < MAX_PLAYERS_PER_TEAM →
      lookup (autoAwardPlayer csv now room p).users w.bidderTeam =
        some { team with
          budget := team.budget - w.amount
          players := team.players ++
            [{ name := p, team := player.team, type := player.type,
               basePrice := player.basePrice, boughtPrice := w.amount,
               boughtAt := now, awardedBy := some "auto_highest_bid" }] } ∧
      setHas (autoAwardPlayer csv now room p).soldPlayers p = true ∧
      lookup (autoAwardPlayer csv now room p).currentBids p =
        some { s with
          status := .sold
          closedAt := some now
          bids := sortBidsDesc s.bids
          soldTo := some w.bidderTeam
          finalPrice := some w.amount }) ∧
    (∀ w, (sortBidsDesc s.bids).head? = some w →
      ¬(∃ team player, lookup room.users w.bidderTeam = some team ∧
          csv.find? (fun q => q.name == p) = some player ∧
          w.amount ≤ team.budget ∧ team.players.length < MAX_PLAYERS_PER_TEAM) →
      (autoAwardPlayer csv now room p).users = room.users ∧
      (autoAwardPlayer csv now room p).soldPlayers = room.soldPlayers ∧
      lookup (autoAwardPlayer csv now room p).currentBids p =
        some { s with
          status := .closed
          closedAt := some now
          bids := sortBidsDesc s.bids }) := by
  have hstat : ¬(s.status ≠ BidStatus.active) := by simp [hact]
  refine ⟨?_, ?_, ?_, ?_⟩
  · intro w hw b hb
    exact head_sortByDesc_ge _ _ _ hw b hb
  · intro hnone
    unfold autoAwardPlayer
    rw [hs]
    dsimp only
    rw [if_neg hstat, hnone]
    dsimp only
    refine ⟨rfl, rfl, ?_⟩
    rw [lookup_updateKey_self, hs]
    rfl
  · intro w team player hw hteam hplayer hba hroster
    unfold autoAwardPlayer
    rw [hs]
    dsimp only
    rw [if_neg hstat, hw]
    dsimp only
    rw [hteam, hplayer]
    dsimp only
    rw [if_pos ⟨hba, hroster⟩]
    refine ⟨?_, ?_, ?_⟩
    · dsimp only
      rw [lookup_updateKey_self, hteam]
      rfl
    · exact setHas_setAdd_self _ _
    · dsimp only
      rw [lookup_updateKey_self, lookup_updateKey_self, hs]
      rfl
  · intro w hw hfail
    unfold autoAwardPlayer
    rw [hs]
    dsimp only
    rw [if_neg hstat, hw]
    dsimp only
    cases hteam : lookup room.users w.bidderTeam with
    | none =>
      dsimp only
      refine ⟨rfl, rfl, ?_⟩
      rw [lookup_updateKey_self, hs]
      rfl
    | some team =>
      cases hplayer : csv.find? (fun q => q.name == p) with
      | none =>
        dsimp only
        refine ⟨rfl, rfl, ?_⟩
        rw [lookup_updateKey_self, hs]
        rfl
      | some player =>
        dsimp only
        rw [if_neg (fun hc => hfail ⟨team, player, hteam, hplayer, hc.1, hc.2⟩)]
        refine ⟨rfl, rfl, ?_⟩
        rw [lookup_updateKey_self, hs]
        rfl

/-- Identical characterisation of `autoAwardBlindBidPlayer` on an `active`
blind session (the player is resolved in the blind pool, the roster record
carries `basePrice: null` and mode `auto_blind_bid`). -/
lemma autoAwardBlindBidPlayer_resolution (csv : List Player) (now : Nat)
    (room : Room) (p : String) (s : BidSession)
    (hs : lookup room.blindBids p = some s) (hact : s.status = .active) :
    (∀ w, (sortBidsDesc s.bids).head? = some w → ∀ b ∈ s.bids, b.amount ≤ w.amount) ∧
    ((sortBidsDesc s.bids).head? = none →
      (autoAwardBlindBidPlayer csv now room p).users = room.users ∧
      (autoAwardBlindBidPlayer csv now room p).soldPlayers = room.soldPlayers ∧
      lookup (autoAwardBlindBidPlayer csv now room p).blindBids p =
        some { s with
          status := .closed
          closedAt := some now
          bids := sortBidsDesc s.bids }) ∧
    (∀ w team player, (sortBidsDesc s.bids).head? = some w →
      lookup room.users w.bidderTeam = some team →
      (blindPool csv).find? (fun q => q.name == p) = some player →
      w.amount ≤ team.budget → team.players.length < MAX_PLAYERS_PER_TEAM →
      lookup (autoAwardBlindBidPlayer csv now room p).users w.bidderTeam =
        some { team with
          budget := team.budget - w.amount
          players := team.players ++
            [{ name := p, team := player.team, type := player.type,
               basePrice := none, boughtPrice := w.amount,
               boughtAt := now, awardedBy := some "auto_blind_bid" }] } ∧
      setHas (autoAwardBlindBidPlayer csv now room p).soldPlayers p = true ∧
      lookup (autoAwardBlindBidPlayer csv now room p).blindBids p =
        some { s with
          status := .sold
          closedAt := some now
          bids := sortBidsDesc s.bids
          soldTo := some w.bidderTeam
          finalPrice := some w.amount }) ∧
    (∀ w, (sortBidsDesc s.bids).head? = some w →
      ¬(∃ team player, lookup room.users w.bidderTeam = some team ∧
          (blindPool csv).find? (fun q => q.name == p) = some player ∧
          w.amount ≤ team.budget ∧ team.players.length < MAX_PLAYERS_PER_TEAM) →
      (autoAwardBlindBidPlayer csv now room p).users = room.users ∧
      (autoAwardBlindBidPlayer csv now room p).soldPlayers = room.soldPlayers ∧
      lookup (autoAwardBlindBidPlayer csv now room p).blindBids p =
        some { s with
          status := .closed
          closedAt := some now
          bids := sortBidsDesc s.bids }) := by
  have hstat : ¬(s.status ≠ BidStatus.active) := by simp [hact]
  refine ⟨?_, ?_, ?_, ?_⟩
  · intro w hw b hb
    exact head_sortByDesc_ge _ _ _ hw b hb
  · intro hnone
    unfold autoAwardBlindBidPlayer
    rw [hs]
    dsimp only
    rw [if_neg hstat, hnone]
    dsimp only
    refine ⟨rfl, rfl, ?_⟩
    rw [lookup_updateKey_self, hs]
    rfl
  · intro w team player hw hteam hplayer hba hroster
    unfold autoAwardBlindBidPlayer
    rw [hs]
    dsimp only
    rw [if_neg hstat, hw]
    dsimp only
    rw [hteam, hplayer]
    dsimp only
    rw [if_pos ⟨hba, hroster⟩]
    refine ⟨?_, ?_, ?_⟩
    · dsimp only
      rw [lookup_updateKey_self, hteam]
      rfl
    · exact setHas_setAdd_self _ _
    · dsimp only
      rw [lookup_updateKey_self, lookup_updateKey_self, hs]
      rfl
  · intro w hw hfail
    unfold autoAwardBlindBidPlayer
    rw [hs]
    dsimp only
    rw [if_neg hstat, hw]
    dsimp only
    cases hteam : lookup room.users w.bidderTeam with
    | none =>
      dsimp only
      refine ⟨rfl, rfl, ?_⟩
      rw [lookup_updateKey_self, hs]
      rfl
    | some team =>
      cases hplayer : (blindPool csv).find? (fun q => q.name == p) with
      | none =>
        dsimp only
        refine ⟨rfl, rfl, ?_⟩
        rw [lookup_updateKey_self, hs]
        rfl
      | some player =>
        dsimp only
        rw [if_neg (fun hc => hfail ⟨team, player, hteam, hplayer, hc.1, hc.2⟩)]
        refine ⟨rfl, rfl, ?_⟩
        rw [lookup_updateKey_self, hs]
        rfl

/-- **C6.**  For every session — regular or blind — that is `active` when
resolution runs: the selected winner (head of the stable descending sort)
carries a maximal amount; if a winner exists and at resolution time its
team still affords the amount with roster space, the award is applied in
full (budget debited, roster record appended, name marked sold, session
`sold`); otherwise — no bids, or the re-validation fails — the session
becomes `closed` with no sale and no fallback to any lower bid: no team's
budget or roster changes and the sold set is untouched. -/
theorem resolution_award_or_close :
    (∀ (csv : List Player) (now : Nat) (room : Room) (p : String) (s : BidSession),
      lookup room.currentBids p = some s → s.status = .active →
      (∀ w, (sortBidsDesc s.bids).head? = some w → ∀ b ∈ s.bids, b.amount ≤ w.amount) ∧
      ((sortBidsDesc s.bids).head? = none →
        (autoAwardPlayer csv now room p).users = room.users ∧
        (autoAwardPlayer csv now room p).soldPlayers = room.soldPlayers ∧
        lookup (autoAwardPlayer csv now room p).currentBids p =
          some { s with
            status := .closed
            closedAt := some now
            bids := sortBidsDesc s.bids }) ∧
      (∀ w team player, (sortBidsDesc s.bids).head? = some w →
        lookup room.users w.bidderTeam = some team →
        csv.find? (fun q => q.name == p) = some player →
        w.amount ≤ team.budget → team.players.length < MAX_PLAYERS_PER_TEAM →
        lookup (autoAwardPlayer csv now room p).users w.bidderTeam =
          some { team with
            budget := team.budget - w.amount
            players := team.players ++
              [{ name := p, team := player.team, type := player.type,
                 basePrice := player.basePrice, boughtPrice := w.amount,
                 boughtAt := now, awardedBy := some "auto_highest_bid" }] } ∧
        setHas (autoAwardPlayer csv now room p).soldPlayers p = true ∧
        lookup (autoAwardPlayer csv now room p).currentBids p =
          some { s with
            status := .sold
            closedAt := some now
            bids := sortBidsDesc s.bids
            soldTo := some w.bidderTeam
            finalPrice := some w.amount }) ∧
      (∀ w, (sortBidsDesc s.bids).head? = some w →
        ¬(∃ team player, lookup room.users w.bidderTeam = some team ∧
            csv.find? (fun q => q.name == p) = some player ∧
            w.amount ≤ team.budget ∧ team.players.length < MAX_PLAYERS_PER_TEAM) →
        (autoAwardPlayer csv now room p).users = room.users ∧
        (autoAwardPlayer csv now room p).soldPlayers = room.soldPlayers ∧
        lookup (autoAwardPlayer csv now room p).currentBids p =
          some { s with
            status := .closed
            closedAt := some now
            bids := sortBidsDesc s.bids })) ∧
    (∀ (csv : List Player) (now : Nat) (room : Room) (p : String) (s : BidSession),
      lookup room.blindBids p = some s → s.status = .active →
      (∀ w, (sortBidsDesc s.bids).head? = some w → ∀ b ∈ s.bids, b.amount ≤ w.amount) ∧
      ((sortBidsDesc s.bids).head? = none →
        (autoAwardBlindBidPlayer csv now room p).users = room.users ∧
        (autoAwardBlindBidPlayer csv now room p).soldPlayers = room.soldPlayers ∧
        lookup (autoAwardBlindBidPlayer csv now room p).blindBids p =
          some { s with
            status := .closed
            closedAt := some now
            bids := sortBidsDesc s.bids }) ∧
      (∀ w team player, (sortBidsDesc s.bids).head? = some w →
        lookup room.users w.bidderTeam = some team →
        (blindPool csv).find? (fun q => q.name == p) = some player →
        w.amount ≤ team.budget → team.players.length < MAX_PLAYERS_PER_TEAM →
        lookup (autoAwardBlindBidPlayer csv now room p).users w.bidderTeam =
          some { team with
            budget := team.budget - w.amount
            players := team.players ++
              [{ name := p, team := player.team, type := player.type,
                 basePrice := none, boughtPrice := w.amount,
                 boughtAt := now, awardedBy := some "auto_blind_bid" }] } ∧
        setHas (autoAwardBlindBidPlayer csv now room p).soldPlayers p = true ∧
        lookup (autoAwardBlindBidPlayer csv now room p).blindBids p =
          some { s with
            status := .sold
            closedAt := some now
            bids := sortBidsDesc s.bids
            soldTo := some w.bidderTeam
            finalPrice := some w.amount }) ∧
      (∀ w, (sortBidsDesc s.bids).head? = some w →
        ¬(∃ team player, lookup room.users w.bidderTeam = some team ∧
            (blindPool csv).find? (fun q => q.name == p) = some player ∧
            w.amount ≤ team.budget ∧ team.players.length < MAX_PLAYERS_PER_TEAM) →
        (autoAwardBlindBidPlayer csv now room p).users = room.users ∧
        (autoAwardBlindBidPlayer csv now room p).soldPlayers = room.soldPlayers ∧
        lookup (autoAwardBlindBidPlayer csv now room p).blindBids p =
          some { s with
            status := .closed
            closedAt := some now
            bids := sortBidsDesc s.bids })) :=
  ⟨fun csv now room p s hs hact =>
      autoAwardPlayer_resolution csv now room p s hs hact,
   fun csv now room p s hs hact =>
      autoAwardBlindBidPlayer_resolution csv now room p s hs hact⟩

/-- A room whose regular session for "P" is active with bids 200 (by "Z")
then 300 (by "A"). -/
def c6Room : Room :=
  applyOps demoCsv (mkRoom "r6" ["A", "Z"] 100000 0)
    [.startBiddingOp "P" 1, .placeBidOp "P" 200 "Z" 2 "w1",
     .placeBidOp "P" 300 "A" 3 "w2"]

/-- The active session stored in `c6Room`. -/
def c6Session : BidSession :=
  { playerName := "P", playerType := .BAT, basePrice := some 100,
    bids := [{ bidderTeam := "Z", amount := 200, timestamp := 2, bidId := "w1" },
             { bidderTeam := "A", amount := 300, timestamp := 3, bidId := "w2" }],
    biddingStartTime := 1, lastBidTime := some 3, status := .active,
    closedAt := none, soldTo := none, finalPrice := none }

/-- **C6 check.**  Resolving `c6Room`'s session awards "P" to "A" at 300:
budget debited, roster record appended, name marked sold. -/
theorem resolution_award_or_close_check :
    lookup (autoAwardPlayer demoCsv 9 c6Room "P").users "A" =
      some { username := "A", budget := 100000 - 300,
             players := [] ++
               [{ name := "P", team := "CSK", type := .BAT,
                  basePrice := some 100, boughtPrice := 300, boughtAt := 9,
                  awardedBy := some "auto_highest_bid" }] } ∧
    setHas (autoAwardPlayer demoCsv 9 c6Room "P").soldPlayers "P" = true := by
  have h := (resolution_award_or_close.1 demoCsv 9 c6Room "P" c6Session rfl rfl).2.2.1
    { bidderTeam := "A", amount := 300, timestamp := 3, bidId := "w2" }
    { username := "A", budget := 100000, players := [] }
    { name := "P", team := "CSK", type := .BAT, basePrice := some 100 }
    rfl rfl rfl (by decide) (by decide)
  exact ⟨h.1, h.2.1⟩

/-! ## C9: blind ties resolve to the first-received bid -/

/-- **C9.**  For a blind session with two or more bids tied at the maximal
amount, resolution deterministically awards the player to the team whose
bid was *received first*: the winner is the first list entry attaining the
maximum (JS `sort` is stable), and under the usual at-resolution
re-validation the session is sold to that team with its budget debited. -/
theorem blind_tie_first_received_wins
    (csv : List Player) (now : Nat) (room : Room) (p : String) (s : BidSession)
    (a : Money) (w : Bid) (team : Team) (player : Player)
    (hs : lookup room.blindBids p = some s)
    (hact : s.status = .active)
    (hmax : ∀ b ∈ s.bids, b.amount ≤ a)
    (hfind : s.bids.find? (fun b => b.amount == a) = some w)
    (htie : 2 ≤ (s.bids.filter (fun b => b.amount == a)).length)
    (hteam : lookup room.users w.bidderTeam = some team)
    (hplayer : (blindPool csv).find? (fun q => q.name == p) = some player)
    (hba : w.amount ≤ team.budget)
    (hroster : team.players.length < MAX_PLAYERS_PER_TEAM) :
    lookup (autoAwardBlindBidPlayer csv now room p).blindBids p =
      some { s with
        status := .sold
        closedAt := some now
        bids := sortBidsDesc s.bids
        soldTo := some w.bidderTeam
        finalPrice := some w.amount } ∧
    lookup (autoAwardBlindBidPlayer csv now room p).users w.bidderTeam =
      some { team with
        budget := team.budget - w.amount
        players := team.players ++
          [{ name := p, team := player.team, type := player.type,
             basePrice := none, boughtPrice := w.amount,
             boughtAt := now, awardedBy := some "auto_blind_bid" }] } := by
  have hw : (sortBidsDesc s.bids).head? = some w := by
    unfold sortBidsDesc
    exact head_sortByDesc_first_max _ _ a w hmax hfind
  have h := (autoAwardBlindBidPlayer_resolution csv now room p s hs hact).2.2.1
    w team player hw hteam hplayer hba hroster
  exact ⟨h.2.2, h.1⟩

/-- A room whose blind session for "B" holds a tie: "A" bid 200000 first,
then "Z" bid 200000. -/
def c9Room : Room :=
  applyOps demoCsv (mkRoom "r9" ["A", "Z"] 1000000 0)
    [.startBlindBiddingOp "B" 1,
     .placeBlindBidOp "B" 200000 "A" 2 "x1",
     .placeBlindBidOp "B" 200000 "Z" 3 "x2"]

/-- The active tied blind session stored in `c9Room`. -/
def c9Session : BidSession :=
  { playerName := "B", playerType := .AR, basePrice := none,
    bids := [{ bidderTeam := "A", amount := 200000, timestamp := 2, bidId := "x1" },
             { bidderTeam := "Z", amount := 200000, timestamp := 3, bidId := "x2" }],
    biddingStartTime := 1, lastBidTime := some 3, status := .active,
    closedAt := none, soldTo := none, finalPrice := none }

/-- **C9 check.**  On the concrete 200000/200000 tie, resolution awards
"B" to team "A" — the first-received bid. -/
theorem blind_tie_first_received_wins_check :
    lookup (autoAwardBlindBidPlayer demoCsv 9 c9Room "B").blindBids "B" =
      some { c9Session with
        status := .sold
        closedAt := some 9
        bids := sortBidsDesc c9Session.bids
        soldTo := some "A"
        finalPrice := some 200000 } ∧
    lookup (autoAwardBlindBidPlayer demoCsv 9 c9Room "B").users "A" =
      some { username := "A", budget := 1000000 - 200000,
             players := [] ++
               [{ name := "B", team := "RCB", type := .AR,
                  basePrice := none, boughtPrice := 200000, boughtAt := 9,
                  awardedBy := some "auto_blind_bid" }] } :=
  blind_tie_first_received_wins demoCsv 9 c9Room "B" c9Session 200000
    { bidderTeam := "A", amount := 200000, timestamp := 2, bidId := "x1" }
    { username := "A", budget := 1000000, players := [] }
    { name := "B", team := "RCB", type := .AR, basePrice := none }
    rfl rfl (by decide) rfl (by decide) rfl rfl (by decide) (by decide)

/-! ## C8: blind amounts are hidden while a session is active

`GET /blind-bids/:roomId/:playerName` and the blind half of
`GET /room-bids/:roomId` are modelled as pure views of the room (the
wall-clock `Date.now()` becomes the `now` parameter). -/

/-- The response of `GET /blind-bids` while the session is `active`: only
count and timing metadata, plus the fixed hiding message (a constant, so
omitted). -/
structure BlindHiddenView where
  playerName : String
  playerType : PType
  totalBids : Nat
  biddingStatus : BidStatus
  biddingStartTime : Nat
  timeRemaining : Int
deriving DecidableEq, Repr

/-- The response of `GET /blind-bids` once the session is terminal: the
full sorted bid list and resolution fields become visible. -/
structure BlindDisclosedView where
  playerName : String
  playerType : PType
  bids : List Bid
  highestBid : Option Bid
  totalBids : Nat
  biddingStatus : BidStatus
  biddingStartTime : Nat
  lastBidTime : Option Nat
  closedAt : Option Nat
  soldTo : Option String
  finalPrice : Option Money
deriving DecidableEq, Repr

inductive BlindBidsResponse
  | notStarted (playerName : String)
  | hidden (v : BlindHiddenView)
  | disclosed (v : BlindDisclosedView)
deriving DecidableEq, Repr

/-- `GET /blind-bids/:roomId/:playerName`. -/
def getBlindBids (now : Nat) (room : Room) (playerName : String) :
    BlindBidsResponse :=
  match lookup room.blindBids playerName with
  | none => .notStarted playerName
  | some s =>
    if s.status = .active then
      .hidden
        { playerName := playerName, playerType := s.playerType,
          totalBids := s.bids.length, biddingStatus := s.status,
          biddingStartTime := s.biddingStartTime,
          timeRemaining :=
            max 0 (BLIND_BID_TIMEOUT - ((now : Int) - (s.biddingStartTime : Int))) }
    else
      .disclosed
        { playerName := playerName, playerType := s.playerType,
          bids := sortBidsDesc s.bids,
          highestBid := (sortBidsDesc s.bids).head?,
          totalBids := s.bids.length, biddingStatus := s.status,
          biddingStartTime := s.biddingStartTime,
          lastBidTime := s.lastBidTime, closedAt := s.closedAt,
          soldTo := s.soldTo, finalPrice := s.finalPrice }

/-- One blind entry of `GET /room-bids` (only active sessions are listed;
only the bid *count* appears). -/
structure RoomBlindEntry where
  playerName : String
  playerType : PType
  totalBids : Nat
  biddingStartTime : Nat
  timeRemaining : Int
deriving DecidableEq, Repr

def blindEntryOf (now : Nat) (s : BidSession) : RoomBlindEntry :=
  { playerName := s.playerName, playerType := s.playerType,
    totalBids := s.bids.length, biddingStartTime := s.biddingStartTime,
    timeRemaining :=
      max 0 (BLIND_BID_TIMEOUT - ((now : Int) - (s.biddingStartTime : Int))) }

/-- The blind half of `GET /room-bids/:roomId`: active blind sessions,
count-only entries, sorted by latest start time (the JS
`blindBids.sort((a, b) => new Date(b.biddingStartTime) - ...)`). -/
def roomBidsBlindView (now : Nat) (room : Room) : List RoomBlindEntry :=
  sortByDesc (fun e => (e.biddingStartTime : Int))
    (((room.blindBids.map Prod.snd).filter
        (fun s => decide (s.status = .active))).map (blindEntryOf now))

/-- What a blind bid reveals publicly while its session is active: the
bidder and arrival time, but *not* the amount (nor the amount-bearing id). -/
def bidPublicPart (b : Bid) : String × Nat :=
  (b.bidderTeam, b.timestamp)

/-- Two sessions that agree on everything except bid amounts / ids. -/
def sessionPublicEq (s1 s2 : BidSession) : Prop :=
  s1.playerName = s2.playerName ∧ s1.playerType = s2.playerType ∧
  s1.biddingStartTime = s2.biddingStartTime ∧ s1.status = s2.status ∧
  s1.bids.map bidPublicPart = s2.bids.map bidPublicPart

lemma blindFilterMap_eq (now : Nat) (l1 l2 : List BidSession)
    (h : List.Forall₂ sessionPublicEq l1 l2) :
    (l1.filter (fun s => decide (s.status = .active))).map (blindEntryOf now) =
    (l2.filter (fun s => decide (s.status = .active))).map (blindEntryOf now) := by
  induction h with
  | nil => rfl
  | cons hq hrest ih =>
    obtain ⟨hn, ht, hst, hstat, hbids⟩ := hq
    rename_i s1 s2 t1 t2
    have hlen : s1.bids.length = s2.bids.length := by
      have hl := congrArg List.length hbids
      simpa using hl
    simp only [List.filter_cons, hstat]
    by_cases hA : s2.status = .active
    · have hd : decide (s2.status = BidStatus.active) = true := by simp [hA]
      rw [hd, if_pos rfl, if_pos rfl, List.map_cons, List.map_cons, ih]
      unfold blindEntryOf
      rw [hn, ht, hst, hlen]
    · have hd : decide (s2.status = BidStatus.active) = false := by simp [hA]
      rw [hd, if_neg (by simp), if_neg (by simp)]
      exact ih

/-- **C8.**  While a blind session is `active`, no query output depends on
the bid amounts.  (1) The per-player blind query returns identical
responses on any two rooms whose session for that player agrees on
type, start time and the public part (bidder, arrival time) of each bid —
amounts may differ arbitrarily.  (2) The room-wide query's blind listing
is likewise identical for two rooms whose blind tables agree publicly.
(3) Once the session is `closed`/`sold` the per-player query *does*
disclose the full (sorted) bid list with amounts and the final price. -/
theorem blind_amounts_hidden_while_active :
    (∀ (now : Nat) (r1 r2 : Room) (p : String) (s1 s2 : BidSession),
      lookup r1.blindBids p = some s1 → lookup r2.blindBids p = some s2 →
      s1.status = .active → s2.status = .active →
      s1.playerType = s2.playerType →
      s1.biddingStartTime = s2.biddingStartTime →
      s1.bids.map bidPublicPart = s2.bids.map bidPublicPart →
      getBlindBids now r1 p = getBlindBids now r2 p) ∧
    (∀ (now : Nat) (r1 r2 : Room),
      List.Forall₂ (fun q1 q2 => sessionPublicEq q1.2 q2.2) r1.blindBids r2.blindBids →
      roomBidsBlindView now r1 = roomBidsBlindView now r2) ∧
    (∀ (now : Nat) (r : Room) (p : String) (s : BidSession),
      lookup r.blindBids p = some s → s.status ≠ .active →
      getBlindBids now r p = .disclosed
        { playerName := p, playerType := s.playerType,
          bids := sortBidsDesc s.bids,
          highestBid := (sortBidsDesc s.bids).head?,
          totalBids := s.bids.length, biddingStatus := s.status,
          biddingStartTime := s.biddingStartTime,
          lastBidTime := s.lastBidTime, closedAt := s.closedAt,
          soldTo := s.soldTo, finalPrice := s.finalPrice }) := by
  refine ⟨?_, ?_, ?_⟩
  · intro now r1 r2 p s1 s2 h1 h2 ha1 ha2 ht hst hbids
    have hlen : s1.bids.length = s2.bids.length := by
      have hl := congrArg List.length hbids
      simpa using hl
    unfold getBlindBids
    rw [h1, h2]
    dsimp only
    rw [if_pos ha1, if_pos ha2, ht, hst, hlen, ha1, ha2]
  · intro now r1 r2 h
    unfold roomBidsBlindView
    have h2 : List.Forall₂ sessionPublicEq (r1.blindBids.map Prod.snd)
        (r2.blindBids.map Prod.snd) := by
      exact List.forall₂_map_right_iff.mpr
        ((List.forall₂_map_left_iff).mpr h)
    rw [blindFilterMap_eq now _ _ h2]
  · intro now r p s hs hterm
    unfold getBlindBids
    rw [hs]
    dsimp only
    rw [if_neg hterm]

/-- Two rooms with active blind sessions for "B" that differ *only* in
the bid amounts (100 vs 999). -/
def c8Room1 : Room :=
  applyOps demoCsv (mkRoom "r8" ["A", "Z"] 100000 0)
    [.startBlindBiddingOp "B" 1, .placeBlindBidOp "B" 100 "A" 2 "y1"]

def c8Room2 : Room :=
  applyOps demoCsv (mkRoom "r8" ["A", "Z"] 100000 0)
    [.startBlindBiddingOp "B" 1, .placeBlindBidOp "B" 999 "A" 2 "y1"]

/-- **C8 check.**  The two concrete rooms' amounts differ, yet both the
per-player and the room-wide blind views coincide; and after a manual
close the amounts become visible. -/
theorem blind_amounts_hidden_while_active_check :
    getBlindBids 7 c8Room1 "B" = getBlindBids 7 c8Room2 "B" ∧
    roomBidsBlindView 7 c8Room1 = roomBidsBlindView 7 c8Room2 := by
  constructor
  · exact blind_amounts_hidden_while_active.1 7 c8Room1 c8Room2 "B"
      { playerName := "B", playerType := .AR, basePrice := none,
        bids := [{ bidderTeam := "A", amount := 100, timestamp := 2, bidId := "y1" }],
        biddingStartTime := 1, lastBidTime := some 2, status := .active,
        closedAt := none, soldTo := none, finalPrice := none }
      { playerName := "B", playerType := .AR, basePrice := none,
        bids := [{ bidderTeam := "A", amount := 999, timestamp := 2, bidId := "y1" }],
        biddingStartTime := 1, lastBidTime := some 2, status := .active,
        closedAt := none, soldTo := none, finalPrice := none }
      rfl rfl rfl rfl rfl rfl rfl
  · exact blind_amounts_hidden_while_active.2.1 7 c8Room1 c8Room2
      (by
        unfold c8Room1 c8Room2
        refine List.Forall₂.cons ?_ List.Forall₂.nil
        exact ⟨rfl, rfl, rfl, rfl, rfl⟩)

/-! ## C2: the sold set does not prevent a double award

`autoAwardPlayer` (and its blind twin) re-validate budget and roster at
resolution time but never re-check `room.soldPlayers`, while
`/select-player` never checks for an active session.  Interleaving the two
therefore awards the same name twice. -/

/-- The interleaving: a regular session for "P" opens and takes a bid of
200 by "A"; "P" is then bought directly by "A" for 300; the session timer
then fires and awards "P" to "A" *again*. -/
def c2Room : Room :=
  applyOps demoCsv (mkRoom "r2" ["A", "Z"] 100000 0)
    [.startBiddingOp "P" 1,
     .placeBidOp "P" 200 "A" 2 "d1",
     .selectPlayerOp "P" 300 "A" 3,
     .timerFireRegular "P" 4]

/-- **C2 (code bug).**  After the interleaving, "P" is in the sold set yet
team "A" holds *two* roster records for "P" and has been debited twice
(100000 − 300 − 200 = 99500) — the claimed "exactly one PurchasedPlayer
record while in the sold set" invariant fails on the code. -/
theorem double_award_after_direct_purchase :
    setHas c2Room.soldPlayers "P" = true ∧
    (lookup c2Room.users "A").map
        (fun t => ((t.players.filter (fun pp => pp.name == "P")).length, t.budget)) =
      some (2, 99500) := ⟨rfl, rfl⟩

/-! ## C10: the persistence round-trip loses the Set-valued fields

`saveRoomsToDB` writes the in-memory `rooms` table through lowdb's
`JSONFile` adapter, i.e. `JSON.stringify`; `loadRoomsFromDB` reads it back
with `JSON.parse` and uses the result directly as room state. -/

/-- JSON values as produced by `JSON.stringify` and consumed by
`JSON.parse`. -/
inductive Json
  | str (s : String)
  | num (n : Int)
  | null
  | arr (items : List Json)
  | obj (fields : List (String × Json))

def jsonOfOptMoney : Option Money → Json
  | none => .null
  | some m => .num m

def jsonOfOptNat : Option Nat → Json
  | none => .null
  | some n => .num n

def jsonOfOptStr : Option String → Json
  | none => .null
  | some s => .str s

def statusString : BidStatus → String
  | .active => "active"
  | .closed => "closed"
  | .sold => "sold"

def ptypeString : PType → String
  | .BAT => "BAT"
  | .AR => "AR"
  | .BOWL => "BOWL"
  | .WK => "WK"

def jsonOfBid (b : Bid) : Json :=
  .obj [("bidderTeam", .str b.bidderTeam), ("amount", .num b.amount),
        ("timestamp", .num b.timestamp), ("bidId", .str b.bidId)]

def jsonOfSession (s : BidSession) : Json :=
  .obj [("playerName", .str s.playerName),
        ("playerType", .str (ptypeString s.playerType)),
        ("basePrice", jsonOfOptMoney s.basePrice),
        ("bids", .arr (s.bids.map jsonOfBid)),
        ("biddingStartTime", .num s.biddingStartTime),
        ("lastBidTime", jsonOfOptNat s.lastBidTime),
        ("status", .str (statusString s.status)),
        ("closedAt", jsonOfOptNat s.closedAt),
        ("soldTo", jsonOfOptStr s.soldTo),
        ("finalPrice", jsonOfOptMoney s.finalPrice)]

def jsonOfPurchased (pp : PurchasedPlayer) : Json :=
  .obj [("name", .str pp.name), ("team", .str pp.team),
        ("type", .str (ptypeString pp.type)),
        ("basePrice", jsonOfOptMoney pp.basePrice),
        ("boughtPrice", .num pp.boughtPrice),
        ("boughtAt", .num pp.boughtAt),
        ("awardedBy", jsonOfOptStr pp.awardedBy)]

def jsonOfTeam (t : Team) : Json :=
  .obj [("username", .str t.username), ("budget", .num t.budget),
        ("players", .arr (t.players.map jsonOfPurchased))]

/-- `JSON.stringify` serialises a JS `Set` as a plain object with no own
enumerable properties: `JSON.stringify(new Set(["x"])) === "{}"`.  The
members are lost regardless of the set's contents. -/
def jsonOfNameSet (_s : List String) : Json := .obj []

def jsonOfBatchState (bs : BatchState) : Json :=
  .obj [("currentCycleIndex", .num bs.currentCycleIndex),
        ("sentPlayers", jsonOfNameSet bs.sentPlayers),
        ("typePointers",
          .obj [("BAT", .num bs.ptrBAT), ("AR", .num bs.ptrAR),
                ("BOWL", .num bs.ptrBOWL), ("WK", .num bs.ptrWK)])]

/-- One room as written by `saveRoomsToDB`. -/
def jsonOfRoom (r : Room) : Json :=
  .obj [("roomId", .str r.roomId),
        ("users", .obj (r.users.map (fun q => (q.1, jsonOfTeam q.2)))),
        ("budgetPerUser", .num r.budgetPerUser),
        ("createdAt", .num r.createdAt),
        ("lastActivity", .num r.lastActivity),
        ("soldPlayers", jsonOfNameSet r.soldPlayers),
        ("currentBids", .obj (r.currentBids.map (fun q => (q.1, jsonOfSession q.2)))),
        ("blindBids", .obj (r.blindBids.map (fun q => (q.1, jsonOfSession q.2)))),
        ("batchState", jsonOfBatchState r.batchState)]

def getField (j : Json) (k : String) : Option Json :=
  match j with
  | .obj fields => lookup fields k
  | _ => none

def strOfJson : Json → Option String
  | .str s => some s
  | _ => none

def intOfJson : Json → Option Int
  | .num n => some n
  | _ => none

def natOfJson : Json → Option Nat
  | .num n => if n < 0 then none else some n.toNat
  | _ => none

def optMoneyOfJson : Json → Option (Option Money)
  | .null => some none
  | .num n => some (some n)
  | _ => none

def optNatOfJson : Json → Option (Option Nat)
  | .null => some none
  | .num n => if n < 0 then none else some (some n.toNat)
  | _ => none

def optStrOfJson : Json → Option (Option String)
  | .null => some none
  | .str s => some (some s)
  | _ => none

def ptypeOfString (s : String) : Option PType :=
  if s = "BAT" then some .BAT
  else if s = "AR" then some .AR
  else if s = "BOWL" then some .BOWL
  else if s = "WK" then some .WK
  else none

def statusOfString (s : String) : Option BidStatus :=
  if s = "active" then some .active
  else if s = "closed" then some .closed
  else if s = "sold" then some .sold
  else none

def listOfJson {α : Type} (f : Json → Option α) : Json → Option (List α)
  | .arr items => items.mapM f
  | _ => none

/-- After `JSON.parse`, the persisted "set" is a plain object; the only
membership recoverable from it is its enumerable keys — and the serialised
form `{}` has none. -/
def nameSetOfJson : Json → Option (List String)
  | .obj fields => some (fields.map Prod.fst)
  | _ => none

def bidOfJson (j : Json) : Option Bid := do
  let bidderTeam ← getField j "bidderTeam" >>= strOfJson
  let amount ← getField j "amount" >>= intOfJson
  let timestamp ← getField j "timestamp" >>= natOfJson
  let bidId ← getField j "bidId" >>= strOfJson
  pure { bidderTeam := bidderTeam, amount := amount,
         timestamp := timestamp, bidId := bidId }

def sessionOfJson (j : Json) : Option BidSession := do
  let playerName ← getField j "playerName" >>= strOfJson
  let playerType ← getField j "playerType" >>= strOfJson >>= ptypeOfString
  let basePrice ← getField j "basePrice" >>= optMoneyOfJson
  let bids ← getField j "bids" >>= listOfJson bidOfJson
  let biddingStartTime ← getField j "biddingStartTime" >>= natOfJson
  let lastBidTime ← getField j "lastBidTime" >>= optNatOfJson
  let status ← getField j "status" >>= strOfJson >>= statusOfString
  let closedAt ← getField j "closedAt" >>= optNatOfJson
  let soldTo ← getField j "soldTo" >>= optStrOfJson
  let finalPrice ← getField j "finalPrice" >>= optMoneyOfJson
  pure { playerName := playerName, playerType := playerType,
         basePrice := basePrice, bids := bids,
         biddingStartTime := biddingStartTime, lastBidTime := lastBidTime,
         status := status, closedAt := closedAt, soldTo := soldTo,
         finalPrice := finalPrice }

def purchasedOfJson (j : Json) : Option PurchasedPlayer := do
  let name ← getField j "name" >>= strOfJson
  let team ← getField j "team" >>= strOfJson
  let type ← getField j "type" >>= strOfJson >>= ptypeOfString
  let basePrice ← getField j "basePrice" >>= optMoneyOfJson
  let boughtPrice ← getField j "boughtPrice" >>= intOfJson
  let boughtAt ← getField j "boughtAt" >>= natOfJson
  let awardedBy ← getField j "awardedBy" >>= optStrOfJson
  pure { name := name, team := team, type := type, basePrice := basePrice,
         boughtPrice := boughtPrice, boughtAt := boughtAt, awardedBy := awardedBy }

def teamOfJson (j : Json) : Option Team := do
  let username ← getField j "username" >>= strOfJson
  let budget ← getField j "budget" >>= intOfJson
  let players ← getField j "players" >>= listOfJson purchasedOfJson
  pure { username := username, budget := budget, players := players }

def tableOfJson {α : Type} (f : Json → Option α) : Json → Option (List (String × α))
  | .obj fields => fields.mapM (fun q => (f q.2).map (fun v => (q.1, v)))
  | _ => none

def batchStateOfJson (j : Json) : Option BatchState := do
  let currentCycleIndex ← getField j "currentCycleIndex" >>= natOfJson
  let sentPlayers ← getField j "sentPlayers" >>= nameSetOfJson
  let tp ← getField j "typePointers"
  let ptrBAT ← getField tp "BAT" >>= natOfJson
  let ptrAR ← getField tp "AR" >>= natOfJson
  let ptrBOWL ← getField tp "BOWL" >>= natOfJson
  let ptrWK ← getField tp "WK" >>= natOfJson
  pure { currentCycleIndex := currentCycleIndex, sentPlayers := sentPlayers,
         ptrBAT := ptrBAT, ptrAR := ptrAR, ptrBOWL := ptrBOWL, ptrWK := ptrWK }

/-- One room as read back by `loadRoomsFromDB`. -/
def roomOfJson (j : Json) : Option Room := do
  let roomId ← getField j "roomId" >>= strOfJson
  let users ← getField j "users" >>= tableOfJson teamOfJson
  let budgetPerUser ← getField j "budgetPerUser" >>= intOfJson
  let createdAt ← getField j "createdAt" >>= natOfJson
  let lastActivity ← getField j "lastActivity" >>= natOfJson
  let soldPlayers ← getField j "soldPlayers" >>= nameSetOfJson
  let currentBids ← getField j "currentBids" >>= tableOfJson sessionOfJson
  let blindBids ← getField j "blindBids" >>= tableOfJson sessionOfJson
  let batchState ← getField j "batchState" >>= batchStateOfJson
  pure { roomId := roomId, users := users, budgetPerUser := budgetPerUser,
         createdAt := createdAt, lastActivity := lastActivity,
         soldPlayers := soldPlayers, currentBids := currentBids,
         blindBids := blindBids, batchState := batchState }

/-- A concrete snapshot: "P" sold, "P" and "Q" already dispatched. -/
def c10Room : Room :=
  { mkRoom "rX" ["A", "Z"] 100000 0 with
    soldPlayers := ["P"]
    batchState :=
      { currentCycleIndex := 1, sentPlayers := ["P", "Q"],
        ptrBAT := 2, ptrAR := 0, ptrBOWL := 0, ptrWK := 0 } }

/-- **C10 (code bug).**  Persisting `c10Room` and reloading it loses the
membership of both Set-valued fields: before the round-trip "P" is sold
and "Q" dispatched; after it, neither membership survives (the JS `Set`
serialises to `{}`). -/
theorem set_fields_lost_on_persistence :
    setHas c10Room.soldPlayers "P" = true ∧
    setHas c10Room.batchState.sentPlayers "Q" = true ∧
    (roomOfJson (jsonOfRoom c10Room)).map
        (fun r => (setHas r.soldPlayers "P", setHas r.batchState.sentPlayers "Q")) =
      some (false, false) := ⟨rfl, rfl, rfl⟩

/-! ## C3: batch dispatch is exhaustive, non-repeating and ordered

`GET /next-batch/:roomId` walks the type cycle over the four priced pools
(`mainAuctionPlayers`), mutating only `room.batchState`; we model it as a
step function on `BatchState` against a fixed catalog. -/

/-- `CYCLE_ORDER[i]` (the code keeps the index in `0..3` via `% 4`). -/
def cycleType (i : Nat) : PType :=
  match i % 4 with
  | 0 => .BAT
  | 1 => .AR
  | 2 => .BOWL
  | _ => .WK

/-- `BATCH_CONFIG = { BAT: 8, AR: 5, BOWL: 8, WK: 5 }`. -/
def BATCH_CONFIG : PType → Nat
  | .BAT => 8
  | .AR => 5
  | .BOWL => 8
  | .WK => 5

/-- `mainAuctionPlayers`: the four priced, per-type pools. -/
structure Catalog where
  batPool : List Player
  arPool : List Player
  bowlPool : List Player
  wkPool : List Player

def Catalog.pool (c : Catalog) : PType → List Player
  | .BAT => c.batPool
  | .AR => c.arPool
  | .BOWL => c.bowlPool
  | .WK => c.wkPool

def BatchState.ptr (bs : BatchState) : PType → Nat
  | .BAT => bs.ptrBAT
  | .AR => bs.ptrAR
  | .BOWL => bs.ptrBOWL
  | .WK => bs.ptrWK

def BatchState.setPtr (bs : BatchState) (t : PType) (n : Nat) : BatchState :=
  match t with
  | .BAT => { bs with ptrBAT := n }
  | .AR => { bs with ptrAR := n }
  | .BOWL => { bs with ptrBOWL := n }
  | .WK => { bs with ptrWK := n }

/-- `b.basePrice - a.basePrice` comparator key (pools are priced, so the
default never fires). -/
def priceOf (p : Player) : Int := p.basePrice.getD 0

/-- `processPlayerData`: priced players grouped by type, each group stably
sorted by descending base price. -/
def mainAuctionPool (csv : List Player) : Catalog :=
  { batPool := sortByDesc priceOf
      ((csv.filter (fun p => p.basePrice.isSome)).filter (fun p => decide (p.type = .BAT)))
    arPool := sortByDesc priceOf
      ((csv.filter (fun p => p.basePrice.isSome)).filter (fun p => decide (p.type = .AR)))
    bowlPool := sortByDesc priceOf
      ((csv.filter (fun p => p.basePrice.isSome)).filter (fun p => decide (p.type = .BOWL)))
    wkPool := sortByDesc priceOf
      ((csv.filter (fun p => p.basePrice.isSome)).filter (fun p => decide (p.type = .WK))) }

/-- The collection loop of `GET /next-batch`: scan the pool from the
pointer, skipping names already dispatched (which does *not* consume
batch capacity), collecting until the batch is full or the list ends. -/
def collectBatch (sent : List String) (cap : Nat) :
    List Player → List Player × List String
  | [] => ([], sent)
  | p :: rest =>
    if cap = 0 then ([], sent)
    else if setHas sent p.name then collectBatch sent cap rest
    else
      let r := collectBatch (setAdd sent p.name) (cap - 1) rest
      (p :: r.1, r.2)

inductive BatchResult
  | complete
  | batch (players : List Player)
deriving DecidableEq, Repr

def allTypesExhausted (cat : Catalog) (bs : BatchState) : Bool :=
  decide ((cat.pool .BAT).length ≤ bs.ptr .BAT) &&
  decide ((cat.pool .AR).length ≤ bs.ptr .AR) &&
  decide ((cat.pool .BOWL).length ≤ bs.ptr .BOWL) &&
  decide ((cat.pool .WK).length ≤ bs.ptr .WK)

/-- One call of `GET /next-batch/:roomId`, acting on `room.batchState`:
collect the next batch for the current type, advance that type's pointer
by the number collected, cycle to the next type when the batch is empty
or the pool exhausted, and report `auctionComplete` when every pointer
has reached its pool's length and the batch was empty. -/
def nextBatchStep (cat : Catalog) (bs : BatchState) : BatchResult × BatchState :=
  let currentType := cycleType bs.currentCycleIndex
  let availablePlayers := cat.pool currentType
  let startIndex := bs.ptr currentType
  let res := collectBatch bs.sentPlayers (BATCH_CONFIG currentType)
    (availablePlayers.drop startIndex)
  let nextBatch := res.1
  let bs1 := { bs.setPtr currentType (startIndex + nextBatch.length) with
    sentPlayers := res.2 }
  if nextBatch.length = 0 ∨ availablePlayers.length ≤ bs1.ptr currentType then
    let bs2 := { bs1 with currentCycleIndex := (bs1.currentCycleIndex + 1) % 4 }
    if allTypesExhausted cat bs2 = true ∧ nextBatch.length = 0 then (.complete, bs2)
    else (.batch nextBatch, bs2)
  else (.batch nextBatch, bs1)

/-- `room.batchState` as initialised by `POST /create-room`. -/
def initialBatchState : BatchState :=
  { currentCycleIndex := 0, sentPlayers := [],
    ptrBAT := 0, ptrAR := 0, ptrBOWL := 0, ptrWK := 0 }

/-- Drive `GET /next-batch` repeatedly (up to `n` calls), returning the
served batches and whether `auctionComplete` was reported. -/
def runBatches (cat : Catalog) (bs : BatchState) : Nat → List (List Player) × Bool
  | 0 => ([], false)
  | n + 1 =>
    match nextBatchStep cat bs with
    | (.complete, _) => ([], true)
    | (.batch nb, bs') =>
      let r := runBatches cat bs' n
      (nb :: r.1, r.2)

/-! ### Pointer / cycle bookkeeping -/

lemma setPtr_self (bs : BatchState) (t : PType) : bs.setPtr t (bs.ptr t) = bs := by
  cases t <;> rfl

lemma ptr_full_update (bs : BatchState) (t : PType) (n : Nat) (sent : List String)
    (ci : Nat) (s : PType) :
    ({ bs.setPtr t n with sentPlayers := sent, currentCycleIndex := ci } : BatchState).ptr s =
      if s = t then n else bs.ptr s := by
  cases t <;> cases s <;> simp [BatchState.setPtr, BatchState.ptr]

lemma ptr_cycle (bs : BatchState) (i : Nat) (t : PType) :
    ({ bs with currentCycleIndex := i } : BatchState).ptr t = bs.ptr t := by
  cases t <;> rfl

def nextType : PType → PType
  | .BAT => .AR
  | .AR => .BOWL
  | .BOWL => .WK
  | .WK => .BAT

lemma next4 (t : PType) : nextType (nextType (nextType (nextType t))) = t := by
  cases t <;> rfl

lemma orbit (t s : PType) :
    s = t ∨ s = nextType t ∨ s = nextType (nextType t) ∨
      s = nextType (nextType (nextType t)) := by
  cases t <;> cases s <;> simp [nextType]

lemma cycleType_advance (i : Nat) :
    cycleType ((i + 1) % 4) = nextType (cycleType i) := by
  have h : i % 4 = 0 ∨ i % 4 = 1 ∨ i % 4 = 2 ∨ i % 4 = 3 := by omega
  rcases h with h | h | h | h
  · have h2 : (i + 1) % 4 = 1 := by omega
    simp [cycleType, nextType, h, h2]
  · have h2 : (i + 1) % 4 = 2 := by omega
    simp [cycleType, nextType, h, h2]
  · have h2 : (i + 1) % 4 = 3 := by omega
    simp [cycleType, nextType, h, h2]
  · have h2 : (i + 1) % 4 = 0 := by omega
    simp [cycleType, nextType, h, h2]

lemma one_le_batchConfig (t : PType) : 1 ≤ BATCH_CONFIG t := by
  cases t <;> decide

/-! ### Liveness, distance and the termination measure -/

def isLive (cat : Catalog) (bs : BatchState) (t : PType) : Prop :=
  bs.ptr t < (cat.pool t).length

instance (cat : Catalog) (bs : BatchState) (t : PType) : Decidable (isLive cat bs t) :=
  Nat.decLt _ _

lemma isLive_cycle (cat : Catalog) (bs : BatchState) (i : Nat) (t : PType) :
    isLive cat { bs with currentCycleIndex := i } t ↔ isLive cat bs t := by
  unfold isLive
  rw [ptr_cycle]

def typeRemaining (cat : Catalog) (bs : BatchState) (t : PType) : Nat :=
  (cat.pool t).length - bs.ptr t

def remaining (cat : Catalog) (bs : BatchState) : Nat :=
  typeRemaining cat bs .BAT + typeRemaining cat bs .AR +
    typeRemaining cat bs .BOWL + typeRemaining cat bs .WK

def distToLive (cat : Catalog) (bs : BatchState) : Nat :=
  if isLive cat bs (cycleType bs.currentCycleIndex) then 0
  else if isLive cat bs (nextType (cycleType bs.currentCycleIndex)) then 1
  else if isLive cat bs (nextType (nextType (cycleType bs.currentCycleIndex))) then 2
  else if isLive cat bs
      (nextType (nextType (nextType (cycleType bs.currentCycleIndex)))) then 3
  else 0

def bmeasure (cat : Catalog) (bs : BatchState) : Nat :=
  5 * remaining cat bs + distToLive cat bs

lemma distToLive_le_three (cat : Catalog) (bs : BatchState) :
    distToLive cat bs ≤ 3 := by
  unfold distToLive
  split_ifs <;> omega

lemma allTypesExhausted_iff (cat : Catalog) (bs : BatchState) :
    allTypesExhausted cat bs = true ↔ ∀ t, ¬ isLive cat bs t := by
  unfold allTypesExhausted isLive
  simp only [Bool.and_eq_true, decide_eq_true_eq]
  constructor
  · rintro ⟨⟨⟨h1, h2⟩, h3⟩, h4⟩ t
    cases t <;> omega
  · intro h
    have hB := h .BAT
    have hA := h .AR
    have hO := h .BOWL
    have hW := h .WK
    refine ⟨⟨⟨?_, ?_⟩, ?_⟩, ?_⟩ <;> omega

lemma allTypesExhausted_cycle (cat : Catalog) (bs : BatchState) (i : Nat) :
    allTypesExhausted cat { bs with currentCycleIndex := i } =
      allTypesExhausted cat bs := rfl

lemma distToLive_advance (cat : Catalog) (bs : BatchState)
    (hdead : ¬ isLive cat bs (cycleType bs.currentCycleIndex))
    (hsome : ∃ s, isLive cat bs s) :
    distToLive cat { bs with currentCycleIndex := (bs.currentCycleIndex + 1) % 4 } <
      distToLive cat bs := by
  obtain ⟨s, hs⟩ := hsome
  unfold distToLive
  dsimp only
  rw [cycleType_advance]
  have hlc : ∀ u, isLive cat { bs with
      currentCycleIndex := (bs.currentCycleIndex + 1) % 4 } u ↔ isLive cat bs u :=
    fun u => isLive_cycle cat bs _ u
  by_cases h1 : isLive cat bs (nextType (cycleType bs.currentCycleIndex))
  · rw [if_pos ((hlc _).mpr h1), if_neg hdead, if_pos h1]
    omega
  · rw [if_neg (fun hc => h1 ((hlc _).mp hc))]
    by_cases h2 : isLive cat bs (nextType (nextType (cycleType bs.currentCycleIndex)))
    · rw [if_pos ((hlc _).mpr h2), if_neg hdead, if_neg h1, if_pos h2]
      omega
    · rw [if_neg (fun hc => h2 ((hlc _).mp hc))]
      by_cases h3 : isLive cat bs
          (nextType (nextType (nextType (cycleType bs.currentCycleIndex))))
      · rw [if_pos ((hlc _).mpr h3), if_neg hdead, if_neg h1, if_neg h2, if_pos h3]
        omega
      · exfalso
        rcases orbit (cycleType bs.currentCycleIndex) s with rfl | rfl | rfl | rfl
        · exact hdead hs
        · exact h1 hs
        · exact h2 hs
        · exact h3 hs

/-! ### Catalog-wide name uniqueness -/

/-- All catalog names, across the four pools (the spec's data model makes
the name a unique key of the catalog). -/
def allNames (cat : Catalog) : List String :=
  (cat.pool .BAT ++ cat.pool .AR ++ cat.pool .BOWL ++ cat.pool .WK).map Player.name

lemma allNames_eq (cat : Catalog) : allNames cat =
    (cat.pool .BAT).map Player.name ++
      ((cat.pool .AR).map Player.name ++
        ((cat.pool .BOWL).map Player.name ++ (cat.pool .WK).map Player.name)) := by
  unfold allNames
  simp [List.map_append, List.append_assoc]

lemma pool_names_nodup (cat : Catalog) (hnd : (allNames cat).Nodup) (t : PType) :
    ((cat.pool t).map Player.name).Nodup := by
  rw [allNames_eq] at hnd
  cases t
  · exact hnd.of_append_left
  · exact hnd.of_append_right.of_append_left
  · exact hnd.of_append_right.of_append_right.of_append_left
  · exact hnd.of_append_right.of_append_right.of_append_right

lemma pool_names_disjoint (cat : Catalog) (hnd : (allNames cat).Nodup)
    (t t' : PType) (hne : t ≠ t') (x : String)
    (hx : x ∈ (cat.pool t).map Player.name)
    (hx' : x ∈ (cat.pool t').map Player.name) : False := by
  rw [allNames_eq] at hnd
  rcases List.nodup_append.mp hnd with ⟨hA, hBCD, hdA⟩
  rcases List.nodup_append.mp hBCD with ⟨hB, hCD, hdB⟩
  rcases List.nodup_append.mp hCD with ⟨hC, hD, hdC⟩
  cases t <;> cases t' <;>
    first
      | exact absurd rfl hne
      | exact hdA hx (by simp [hx'])
      | exact hdA hx' (by simp [hx])
      | exact hdB hx (by simp [hx'])
      | exact hdB hx' (by simp [hx])
      | exact hdC hx (by simp [hx'])
      | exact hdC hx' (by simp [hx])

/-! ### The collection loop without skips -/

lemma setAdd_of_not_mem (s : List String) (x : String) (h : x ∉ s) :
    setAdd s x = s ++ [x] := by
  unfold setAdd
  rw [if_neg (by simpa using h)]

lemma collectBatch_clean (ps : List Player) (sent : List String) (cap : Nat)
    (hfresh : ∀ p ∈ ps, p.name ∉ sent)
    (hnd : (ps.map Player.name).Nodup) :
    collectBatch sent cap ps =
      (ps.take cap, sent ++ (ps.map Player.name).take cap) := by
  induction ps generalizing sent cap with
  | nil => simp [collectBatch]
  | cons p rest ih =>
    unfold collectBatch
    rcases cap with _ | c
    · simp
    · rw [if_neg (by simp)]
      have hmem : p.name ∉ sent := hfresh p (by simp)
      have hnot : ¬(setHas sent p.name = true) := by
        simpa [setHas] using hmem
      rw [if_neg hnot]
      rw [List.map_cons, List.nodup_cons] at hnd
      have hfresh' : ∀ q ∈ rest, q.name ∉ sent ++ [p.name] := by
        intro q hq hc
        rcases List.mem_append.mp hc with hc | hc
        · exact hfresh q (by simp [hq]) hc
        · simp only [List.mem_singleton] at hc
          exact hnd.1 (hc ▸ List.mem_map_of_mem Player.name hq)
      have hrec := ih (sent ++ [p.name]) c hfresh' hnd.2
      rw [setAdd_of_not_mem sent p.name hmem]
      simp only [Nat.succ_sub_one, hrec]
      simp [List.append_assoc]

/-! ### List plumbing -/

lemma take_len_append_drop {α : Type} (d : List α) (c : Nat) :
    d.take c ++ d.drop ((d.take c).length) = d := by
  induction d generalizing c with
  | nil => simp
  | cons x xs ih =>
    cases c with
    | zero => simp
    | succ c =>
      simp only [List.take_succ_cons, List.length_cons, List.drop_succ_cons,
        List.cons_append]
      rw [ih]

lemma take_take_len {α : Type} (d : List α) (c : Nat) :
    d.take ((d.take c).length) = d.take c := by
  induction d generalizing c with
  | nil => simp
  | cons x xs ih =>
    cases c with
    | zero => simp
    | succ c =>
      simp only [List.take_succ_cons, List.length_cons]
      rw [ih]

lemma perm_pull_front {α : Type} (s pre post : List α) :
    (s ++ (pre ++ post)).Perm (pre ++ (s ++ post)) := by
  have h1 : s ++ (pre ++ post) = (s ++ pre) ++ post := by rw [List.append_assoc]
  have h2 : ((s ++ pre) ++ post).Perm ((pre ++ s) ++ post) :=
    (List.perm_append_comm).append_right _
  have h3 : (pre ++ s) ++ post = pre ++ (s ++ post) := by rw [List.append_assoc]
  rw [h1, ← h3]
  exact h2

lemma perm_pull_front2 {α : Type} (s a b post : List α) :
    (s ++ (a ++ (b ++ post))).Perm (a ++ (b ++ (s ++ post))) :=
  (perm_pull_front s a (b ++ post)).trans
    ((perm_pull_front s b post).append_left a)

lemma perm_pull_front3 {α : Type} (s a b c post : List α) :
    (s ++ (a ++ (b ++ (c ++ post)))).Perm (a ++ (b ++ (c ++ (s ++ post)))) :=
  (perm_pull_front s a (b ++ (c ++ post))).trans
    ((perm_pull_front2 s b c post).append_left a)

/-! ### The dispatch invariant and the three step shapes -/

/-- Names of the already-dispatched prefix of a pool. -/
def prefNames (cat : Catalog) (bs : BatchState) (t : PType) : List String :=
  ((cat.pool t).take (bs.ptr t)).map Player.name

/-- The reachable-state invariant of the dispatcher: pointers stay within
their pools and the dispatched set is exactly the union of the pools'
prefixes. -/
structure BInv (cat : Catalog) (bs : BatchState) : Prop where
  hle : ∀ t, bs.ptr t ≤ (cat.pool t).length
  hsent : ∀ x, x ∈ bs.sentPlayers ↔ ∃ t, x ∈ prefNames cat bs t

lemma sent_eta (bs : BatchState) :
    ({ bs with sentPlayers := bs.sentPlayers } : BatchState) = bs := rfl

lemma ptr_update_sent (bs : BatchState) (sent : List String) (s : PType) :
    ({ bs with sentPlayers := sent } : BatchState).ptr s = bs.ptr s := by
  cases s <;> rfl

lemma ptr_setPtr_self (bs : BatchState) (t : PType) (n : Nat) :
    (bs.setPtr t n).ptr t = n := by
  cases t <;> rfl

lemma ptr_setPtr_other (bs : BatchState) (t s : PType) (n : Nat) (hne : s ≠ t) :
    (bs.setPtr t n).ptr s = bs.ptr s := by
  cases t <;> cases s <;> first | exact absurd rfl hne | rfl

lemma idx_update_sent (bs : BatchState) (t : PType) (n : Nat) (sent : List String) :
    ({ bs.setPtr t n with sentPlayers := sent } : BatchState).currentCycleIndex =
      bs.currentCycleIndex := by
  cases t <;> rfl

lemma idx_setPtr_eq (bs : BatchState) (t : PType) (n : Nat) :
    (bs.setPtr t n).currentCycleIndex = bs.currentCycleIndex := by
  cases t <;> rfl

/-- All pools exhausted: the call reports `auctionComplete` (after still
advancing the cycle index). -/
lemma nextBatchStep_dead_complete (cat : Catalog) (bs : BatchState)
    (hall : allTypesExhausted cat bs = true) :
    nextBatchStep cat bs =
      (.complete, { bs with currentCycleIndex := (bs.currentCycleIndex + 1) % 4 }) := by
  have hdead : (cat.pool (cycleType bs.currentCycleIndex)).length ≤
      bs.ptr (cycleType bs.currentCycleIndex) := by
    have h := (allTypesExhausted_iff cat bs).mp hall (cycleType bs.currentCycleIndex)
    unfold isLive at h
    omega
  unfold nextBatchStep
  dsimp only
  rw [List.drop_eq_nil_of_le hdead]
  simp only [collectBatch, List.length_nil, Nat.add_zero, setPtr_self, sent_eta]
  rw [if_pos (Or.inl trivial)]
  rw [if_pos ⟨by rw [allTypesExhausted_cycle]; exact hall, trivial⟩]

/-- Current pool exhausted but some other pool still live: an empty batch
is served and the cycle advances. -/
lemma nextBatchStep_dead_next (cat : Catalog) (bs : BatchState)
    (hdead : (cat.pool (cycleType bs.currentCycleIndex)).length ≤
      bs.ptr (cycleType bs.currentCycleIndex))
    (hnotall : allTypesExhausted cat bs = false) :
    nextBatchStep cat bs =
      (.batch [], { bs with currentCycleIndex := (bs.currentCycleIndex + 1) % 4 }) := by
  unfold nextBatchStep
  dsimp only
  rw [List.drop_eq_nil_of_le hdead]
  simp only [collectBatch, List.length_nil, Nat.add_zero, setPtr_self, sent_eta]
  rw [if_pos (Or.inl trivial)]
  rw [if_neg (by
    rintro ⟨h1, _⟩
    rw [allTypesExhausted_cycle, hnotall] at h1
    cases h1)]

/-- Current pool live: a nonempty slice of it is served, its names are
appended to the dispatched set, its pointer advances by the slice length,
and the cycle index either stays or advances. -/
lemma nextBatchStep_live (cat : Catalog) (bs : BatchState)
    (hnd : (allNames cat).Nodup) (hinv : BInv cat bs)
    (t : PType) (ht : cycleType bs.currentCycleIndex = t)
    (hlive : bs.ptr t < (cat.pool t).length)
    (slice : List Player)
    (hslice : slice = ((cat.pool t).drop (bs.ptr t)).take (BATCH_CONFIG t)) :
    slice ≠ [] ∧
    ∃ ci, (ci = bs.currentCycleIndex ∨ ci = (bs.currentCycleIndex + 1) % 4) ∧
      nextBatchStep cat bs =
        (.batch slice,
         { bs.setPtr t (bs.ptr t + slice.length) with
           sentPlayers := bs.sentPlayers ++ slice.map Player.name
           currentCycleIndex := ci }) := by
  have hfresh : ∀ p ∈ (cat.pool t).drop (bs.ptr t), p.name ∉ bs.sentPlayers := by
    intro p hp hmem
    obtain ⟨s, hps⟩ := (hinv.hsent p.name).mp hmem
    unfold prefNames at hps
    by_cases hst : s = t
    · subst hst
      have hnds := pool_names_nodup cat hnd s
      have hsplit : (cat.pool s).map Player.name =
          ((cat.pool s).take (bs.ptr s)).map Player.name ++
            ((cat.pool s).drop (bs.ptr s)).map Player.name := by
        rw [← List.map_append, List.take_append_drop]
      rw [hsplit] at hnds
      rcases List.nodup_append.mp hnds with ⟨_, _, hdisj⟩
      exact hdisj hps (List.mem_map_of_mem Player.name hp)
    · obtain ⟨q, hq, hqe⟩ := List.mem_map.mp hps
      refine pool_names_disjoint cat hnd s t hst p.name ?_ ?_
      · exact hqe ▸ List.mem_map_of_mem Player.name (List.mem_of_mem_take hq)
      · exact List.mem_map_of_mem Player.name (List.mem_of_mem_drop hp)
  have hndslice : (((cat.pool t).drop (bs.ptr t)).map Player.name).Nodup := by
    have hnds := pool_names_nodup cat hnd t
    exact hnds.sublist (((cat.pool t).drop_sublist (bs.ptr t)).map Player.name)
  have hcoll := collectBatch_clean ((cat.pool t).drop (bs.ptr t)) bs.sentPlayers
    (BATCH_CONFIG t) hfresh hndslice
  have hne : slice ≠ [] := by
    rw [hslice]
    intro hc
    have hlc := congrArg List.length hc
    rw [List.length_take, List.length_nil, List.length_drop] at hlc
    have hcfg := one_le_batchConfig t
    omega
  refine ⟨hne, ?_⟩
  have hnames : ((((cat.pool t).drop (bs.ptr t)).map Player.name).take (BATCH_CONFIG t))
      = slice.map Player.name := by
    rw [hslice, List.map_take]
  unfold nextBatchStep
  dsimp only
  rw [ht, hcoll]
  dsimp only
  rw [hnames, ← hslice]
  rw [ptr_update_sent, ptr_setPtr_self]
  by_cases hadv : (cat.pool t).length ≤ bs.ptr t + slice.length
  · refine ⟨(bs.currentCycleIndex + 1) % 4, Or.inr rfl, ?_⟩
    rw [if_pos (Or.inr hadv)]
    rw [if_neg (fun hc => hne (List.length_eq_zero.mp hc.2))]
    rw [idx_update_sent]
  · refine ⟨bs.currentCycleIndex, Or.inl rfl, ?_⟩
    rw [if_neg (by
      rintro (h0 | hcon)
      · exact hne (List.length_eq_zero.mp h0)
      · exact hadv hcon)]
    rw [idx_setPtr_eq]

lemma sent_full_update (bs : BatchState) (t : PType) (n : Nat) (sent : List String)
    (ci : Nat) :
    ({ bs.setPtr t n with sentPlayers := sent, currentCycleIndex := ci } :
      BatchState).sentPlayers = sent := by
  cases t <;> rfl

lemma BInv_live_step (cat : Catalog) (bs bs' : BatchState) (hinv : BInv cat bs)
    (t : PType) (hlive : bs.ptr t < (cat.pool t).length)
    (slice : List Player)
    (hslice : slice = ((cat.pool t).drop (bs.ptr t)).take (BATCH_CONFIG t))
    (hsent' : bs'.sentPlayers = bs.sentPlayers ++ slice.map Player.name)
    (hptr' : ∀ s, bs'.ptr s = if s = t then bs.ptr t + slice.length else bs.ptr s) :
    BInv cat bs' := by
  have hkle : slice.length ≤ (cat.pool t).length - bs.ptr t := by
    rw [hslice, List.length_take, List.length_drop]
    omega
  have hslice2 : ((cat.pool t).drop (bs.ptr t)).take slice.length = slice := by
    conv_lhs => rw [hslice]
    rw [take_take_len, ← hslice]
  have hpref_t : prefNames cat bs' t = prefNames cat bs t ++ slice.map Player.name := by
    unfold prefNames
    rw [hptr' t, if_pos rfl, List.take_add, hslice2, List.map_append]
  have hpref_o : ∀ s, s ≠ t → prefNames cat bs' s = prefNames cat bs s := by
    intro s hs
    unfold prefNames
    rw [hptr' s, if_neg hs]
  constructor
  · intro s
    rw [hptr' s]
    by_cases hst : s = t
    · subst hst
      rw [if_pos rfl]
      omega
    · rw [if_neg hst]
      exact hinv.hle s
  · intro x
    rw [hsent']
    constructor
    · intro hx
      rcases List.mem_append.mp hx with hx | hx
      · obtain ⟨s, hps⟩ := (hinv.hsent x).mp hx
        by_cases hst : s = t
        · subst hst
          exact ⟨s, by rw [hpref_t]; exact List.mem_append_left _ hps⟩
        · exact ⟨s, by rw [hpref_o s hst]; exact hps⟩
      · exact ⟨t, by rw [hpref_t]; exact List.mem_append_right _ hx⟩
    · rintro ⟨s, hps⟩
      by_cases hst : s = t
      · subst hst
        rw [hpref_t] at hps
        rcases List.mem_append.mp hps with hps | hps
        · exact List.mem_append_left _ ((hinv.hsent x).mpr ⟨s, hps⟩)
        · exact List.mem_append_right _ hps
      · rw [hpref_o s hst] at hps
        exact List.mem_append_left _ ((hinv.hsent x).mpr ⟨s, hps⟩)

lemma BInv_cycle (cat : Catalog) (bs : BatchState) (hinv : BInv cat bs) (i : Nat) :
    BInv cat { bs with currentCycleIndex := i } := by
  constructor
  · intro s
    rw [ptr_cycle]
    exact hinv.hle s
  · intro x
    have hs : ({ bs with currentCycleIndex := i } : BatchState).sentPlayers =
        bs.sentPlayers := rfl
    rw [hs]
    constructor
    · intro hx
      obtain ⟨s, hps⟩ := (hinv.hsent x).mp hx
      exact ⟨s, by unfold prefNames; rw [ptr_cycle]; exact hps⟩
    · rintro ⟨s, hps⟩
      unfold prefNames at hps
      rw [ptr_cycle] at hps
      exact (hinv.hsent x).mpr ⟨s, hps⟩

lemma remaining_cycle (cat : Catalog) (bs : BatchState) (i : Nat) :
    remaining cat { bs with currentCycleIndex := i } = remaining cat bs := by
  unfold remaining typeRemaining
  rw [ptr_cycle bs i .BAT, ptr_cycle bs i .AR, ptr_cycle bs i .BOWL, ptr_cycle bs i .WK]

lemma remaining_live_step (cat : Catalog) (bs bs' : BatchState)
    (t : PType) (k : Nat) (hk : bs.ptr t + k ≤ (cat.pool t).length)
    (hptr' : ∀ s, bs'.ptr s = if s = t then bs.ptr t + k else bs.ptr s) :
    remaining cat bs' + k = remaining cat bs := by
  unfold remaining typeRemaining
  rw [hptr' .BAT, hptr' .AR, hptr' .BOWL, hptr' .WK]
  cases t <;> simp only [if_pos, if_neg, reduceCtorEq, reduceIte] <;> omega

lemma drop_slice_split (l : List Player) (p c : Nat) :
    l.drop p = (l.drop p).take c ++ l.drop (p + ((l.drop p).take c).length) := by
  conv_lhs => rw [← take_len_append_drop (l.drop p) c]
  congr 1
  rw [List.drop_drop, Nat.add_comm]

lemma perm_reinsert (f g : PType → List Player) (slice : List Player) (t : PType)
    (hothers : ∀ s, s ≠ t → g s = f s)
    (ht : f t = slice ++ g t) :
    List.Perm (slice ++ (g .BAT ++ (g .AR ++ (g .BOWL ++ g .WK))))
      (f .BAT ++ (f .AR ++ (f .BOWL ++ f .WK))) := by
  cases t with
  | BAT =>
    rw [ht, hothers .AR (by decide), hothers .BOWL (by decide),
      hothers .WK (by decide), List.append_assoc]
  | AR =>
    rw [ht, hothers .BAT (by decide), hothers .BOWL (by decide),
      hothers .WK (by decide), List.append_assoc]
    exact perm_pull_front slice (f .BAT) (g .AR ++ (f .BOWL ++ f .WK))
  | BOWL =>
    rw [ht, hothers .BAT (by decide), hothers .AR (by decide),
      hothers .WK (by decide), List.append_assoc]
    exact perm_pull_front2 slice (f .BAT) (f .AR) (g .BOWL ++ f .WK)
  | WK =>
    rw [ht, hothers .BAT (by decide), hothers .AR (by decide),
      hothers .BOWL (by decide)]
    exact perm_pull_front3 slice (f .BAT) (f .AR) (f .BOWL) (g .WK)

lemma runBatches_complete (cat : Catalog) (hnd : (allNames cat).Nodup)
    (htype : ∀ t, ∀ p ∈ cat.pool t, p.type = t) :
    ∀ (fuel : Nat) (bs : BatchState), bmeasure cat bs ≤ fuel → BInv cat bs →
    ∃ n batches, runBatches cat bs n = (batches, true) ∧
      (∀ t, batches.flatten.filter (fun p => decide (p.type = t)) =
        (cat.pool t).drop (bs.ptr t)) ∧
      List.Perm batches.flatten
        ((cat.pool .BAT).drop (bs.ptr .BAT) ++
          ((cat.pool .AR).drop (bs.ptr .AR) ++
            ((cat.pool .BOWL).drop (bs.ptr .BOWL) ++
              (cat.pool .WK).drop (bs.ptr .WK)))) ∧
      (∀ b ∈ batches, ∃ t, ∀ p ∈ b, p.type = t) := by
  intro fuel
  induction fuel with
  | zero =>
    intro bs hm hinv
    have hrem : remaining cat bs = 0 := by
      unfold bmeasure at hm
      omega
    have hdead : ∀ t, (cat.pool t).length ≤ bs.ptr t := by
      intro t
      unfold remaining typeRemaining at hrem
      cases t <;> omega
    have hall : allTypesExhausted cat bs = true := by
      rw [allTypesExhausted_iff]
      intro t
      unfold isLive
      have := hdead t
      omega
    refine ⟨1, [], ?_, ?_, ?_, ?_⟩
    · simp only [runBatches, nextBatchStep_dead_complete cat bs hall]
    · intro t
      simp [List.drop_eq_nil_of_le (hdead t)]
    · simp [List.drop_eq_nil_of_le (hdead .BAT), List.drop_eq_nil_of_le (hdead .AR),
        List.drop_eq_nil_of_le (hdead .BOWL), List.drop_eq_nil_of_le (hdead .WK)]
    · intro b hb
      cases hb
  | succ fuel ih =>
    intro bs hm hinv
    by_cases hall : allTypesExhausted cat bs = true
    · have hdead : ∀ t, (cat.pool t).length ≤ bs.ptr t := by
        intro t
        have := (allTypesExhausted_iff cat bs).mp hall t
        unfold isLive at this
        omega
      refine ⟨1, [], ?_, ?_, ?_, ?_⟩
      · simp only [runBatches, nextBatchStep_dead_complete cat bs hall]
      · intro t
        simp [List.drop_eq_nil_of_le (hdead t)]
      · simp [List.drop_eq_nil_of_le (hdead .BAT), List.drop_eq_nil_of_le (hdead .AR),
          List.drop_eq_nil_of_le (hdead .BOWL), List.drop_eq_nil_of_le (hdead .WK)]
      · intro b hb
        cases hb
    · have hsome : ∃ s, isLive cat bs s := by
        by_contra hno
        push_neg at hno
        exact hall ((allTypesExhausted_iff cat bs).mpr fun t ht => hno t ht)
      by_cases hlive : isLive cat bs (cycleType bs.currentCycleIndex)
      · -- live step: emit a batch of the current type
        set t := cycleType bs.currentCycleIndex with htdef
        set slice := ((cat.pool t).drop (bs.ptr t)).take (BATCH_CONFIG t) with hslicedef
        obtain ⟨hne, ci, hci, hstep⟩ :=
          nextBatchStep_live cat bs hnd hinv t htdef.symm hlive slice hslicedef
        set bs' : BatchState := { bs.setPtr t (bs.ptr t + slice.length) with
          sentPlayers := bs.sentPlayers ++ slice.map Player.name
          currentCycleIndex := ci } with hbsnext
        have hptr' : ∀ s, bs'.ptr s =
            if s = t then bs.ptr t + slice.length else bs.ptr s := by
          intro s
          rw [hbsnext]
          exact ptr_full_update bs t (bs.ptr t + slice.length)
            (bs.sentPlayers ++ slice.map Player.name) ci s
        have hsent' : bs'.sentPlayers = bs.sentPlayers ++ slice.map Player.name := by
          rw [hbsnext]
        have hlt : bs.ptr t < (cat.pool t).length := hlive
        have hinv' : BInv cat bs' :=
          BInv_live_step cat bs bs' hinv t hlive slice hslicedef hsent' hptr'
        have hk1 : 1 ≤ slice.length := List.length_pos.mpr hne
        have hkle : bs.ptr t + slice.length ≤ (cat.pool t).length := by
          rw [hslicedef, List.length_take, List.length_drop]
          omega
        have hrem' : remaining cat bs' + slice.length = remaining cat bs :=
          remaining_live_step cat bs bs' t slice.length hkle hptr'
        have hm' : bmeasure cat bs' ≤ fuel := by
          have hd3 := distToLive_le_three cat bs'
          unfold bmeasure at hm ⊢
          omega
        obtain ⟨n', batches', hrun', hfilter', hperm', hhomog'⟩ := ih bs' hm' hinv'
        have hsplit : (cat.pool t).drop (bs.ptr t) =
            slice ++ (cat.pool t).drop (bs.ptr t + slice.length) := by
          have h := drop_slice_split (cat.pool t) (bs.ptr t) (BATCH_CONFIG t)
          rw [← hslicedef] at h
          exact h
        refine ⟨n' + 1, slice :: batches', ?_, ?_, ?_, ?_⟩
        · simp only [runBatches, hstep]
          rw [hrun']
        · intro s
          rw [List.flatten_cons, List.filter_append]
          by_cases hst : s = t
          · subst hst
            have h1 : slice.filter (fun p => decide (p.type = t)) = slice := by
              refine List.filter_eq_self.mpr ?_
              intro p hp
              have hmem : p ∈ cat.pool t :=
                List.mem_of_mem_drop (List.mem_of_mem_take (hslicedef ▸ hp))
              simp [htype t p hmem]
            rw [h1, hfilter' t, hptr' t, if_pos rfl, hsplit]
          · have h1 : slice.filter (fun p => decide (p.type = s)) = [] := by
              refine List.filter_eq_nil_iff.mpr ?_
              intro p hp
              have hmem : p ∈ cat.pool t :=
                List.mem_of_mem_drop (List.mem_of_mem_take (hslicedef ▸ hp))
              simp only [htype t p hmem, decide_eq_true_eq]
              exact fun hc => hst hc.symm
            rw [h1, hfilter' s, hptr' s, if_neg hst, List.nil_append]
        · rw [List.flatten_cons]
          refine List.Perm.trans (List.Perm.append_left slice hperm') ?_
          have hgoal := perm_reinsert (fun s => (cat.pool s).drop (bs.ptr s))
            (fun s => (cat.pool s).drop (bs'.ptr s)) slice t
            (fun s hs => by simp only; rw [hptr' s, if_neg hs])
            (by simp only; rw [hptr' t, if_pos rfl]; exact hsplit)
          exact hgoal
        · intro b hb
          rcases List.mem_cons.mp hb with rfl | hb
          · refine ⟨t, fun p hp => htype t p ?_⟩
            exact List.mem_of_mem_drop (List.mem_of_mem_take (hslicedef ▸ hp))
          · exact hhomog' b hb
      · -- current type exhausted but others remain: advance the cycle
        have hdead : (cat.pool (cycleType bs.currentCycleIndex)).length ≤
            bs.ptr (cycleType bs.currentCycleIndex) := by
          unfold isLive at hlive
          omega
        have hfalse : allTypesExhausted cat bs = false := by
          cases hax : allTypesExhausted cat bs with
          | false => rfl
          | true => exact absurd hax hall
        have hstep := nextBatchStep_dead_next cat bs hdead hfalse
        set bs2 : BatchState :=
          { bs with currentCycleIndex := (bs.currentCycleIndex + 1) % 4 } with hbs2def
        have hinv2 : BInv cat bs2 := by
          rw [hbs2def]
          exact BInv_cycle cat bs hinv _
        have hptr2 : ∀ s, bs2.ptr s = bs.ptr s := by
          intro s
          rw [hbs2def]
          exact ptr_cycle bs _ s
        have hrem2 : remaining cat bs2 = remaining cat bs := by
          rw [hbs2def]
          exact remaining_cycle cat bs _
        have hdist : distToLive cat bs2 < distToLive cat bs := by
          rw [hbs2def]
          exact distToLive_advance cat bs hlive hsome
        have hm2 : bmeasure cat bs2 ≤ fuel := by
          unfold bmeasure at hm ⊢
          omega
        obtain ⟨n', batches', hrun', hfilter', hperm', hhomog'⟩ := ih bs2 hm2 hinv2
        refine ⟨n' + 1, [] :: batches', ?_, ?_, ?_, ?_⟩
        · simp only [runBatches, hstep]
          rw [hrun']
        · intro s
          rw [List.flatten_cons, List.nil_append, hfilter' s, hptr2 s]
        · rw [List.flatten_cons, List.nil_append]
          rw [hptr2 .BAT, hptr2 .AR, hptr2 .BOWL, hptr2 .WK] at hperm'
          exact hperm'
        · intro b hb
          rcases List.mem_cons.mp hb with rfl | hb
          · exact ⟨.BAT, fun p hp => absurd hp (List.not_mem_nil p)⟩
          · exact hhomog' b hb

lemma BInv_initial (cat : Catalog) : BInv cat initialBatchState := by
  constructor
  · intro t
    cases t <;> exact Nat.zero_le _
  · intro x
    constructor
    · intro hx
      cases hx
    · rintro ⟨s, hps⟩
      unfold prefNames at hps
      cases s <;> simp [initialBatchState, BatchState.ptr] at hps

/-- C3: for every priced catalog produced by `processPlayerData` whose player
names are distinct, repeatedly calling `GET /next-batch` eventually reports
`auctionComplete`, and the concatenation of all served batches contains exactly
the priced catalog: filtering the served players by type recovers each type's
pool exactly (so every priced player is served, in descending base-price order
within its type), no player name is served twice, and every batch is
homogeneous in type. -/
theorem batch_dispatch_exhaustive (csv : List Player)
    (hnd : (allNames (mainAuctionPool csv)).Nodup) :
    ∃ n batches,
      runBatches (mainAuctionPool csv) initialBatchState n = (batches, true) ∧
      (∀ t, batches.flatten.filter (fun p => decide (p.type = t)) =
        (mainAuctionPool csv).pool t) ∧
      (batches.flatten.map Player.name).Nodup ∧
      (∀ t, (batches.flatten.filter (fun p => decide (p.type = t))).Pairwise
        (fun a b => priceOf b ≤ priceOf a)) ∧
      (∀ b ∈ batches, ∃ t, ∀ p ∈ b, p.type = t) := by
  have htype : ∀ t, ∀ p ∈ (mainAuctionPool csv).pool t, p.type = t := by
    intro t p hp
    cases t <;>
    · simp only [mainAuctionPool, Catalog.pool] at hp
      have hm := (mem_sortByDesc priceOf p _).mp hp
      have h2 := (List.mem_filter.mp hm).2
      simpa using h2
  have hsorted : ∀ t,
      ((mainAuctionPool csv).pool t).Pairwise (fun a b => priceOf b ≤ priceOf a) := by
    intro t
    cases t <;>
    · simp only [mainAuctionPool, Catalog.pool]
      exact pairwise_sortByDesc priceOf _
  obtain ⟨n, batches, hrun, hfilter, hperm, hhomog⟩ :=
    runBatches_complete (mainAuctionPool csv) hnd htype
      (bmeasure (mainAuctionPool csv) initialBatchState) initialBatchState
      le_rfl (BInv_initial _)
  have hptr0 : ∀ t, initialBatchState.ptr t = 0 := by
    intro t
    cases t <;> rfl
  have hfilter0 : ∀ t, batches.flatten.filter (fun p => decide (p.type = t)) =
      (mainAuctionPool csv).pool t := by
    intro t
    rw [hfilter t, hptr0 t, List.drop_zero]
  refine ⟨n, batches, hrun, hfilter0, ?_, ?_, hhomog⟩
  · have hpm : List.Perm (batches.flatten.map Player.name)
        (allNames (mainAuctionPool csv)) := by
      rw [hptr0 .BAT, hptr0 .AR, hptr0 .BOWL, hptr0 .WK] at hperm
      simp only [List.drop_zero] at hperm
      have h2 := hperm.map Player.name
      rw [allNames_eq]
      simpa [List.map_append] using h2
    exact hpm.nodup_iff.mpr hnd
  · intro t
    rw [hfilter0 t]
    exact hsorted t

def c3Csv : List Player :=
  [{ name := "a1", team := "T", type := .BAT, basePrice := some 10 },
   { name := "a2", team := "T", type := .BAT, basePrice := some 5 },
   { name := "r1", team := "T", type := .AR, basePrice := some 3 },
   { name := "w1", team := "T", type := .WK, basePrice := some 2 }]

theorem batch_dispatch_exhaustive_check :
    (allNames (mainAuctionPool c3Csv)).Nodup ∧
    (∃ n batches,
      runBatches (mainAuctionPool c3Csv) initialBatchState n = (batches, true) ∧
      (∀ t, batches.flatten.filter (fun p => decide (p.type = t)) =
        (mainAuctionPool c3Csv).pool t) ∧
      (batches.flatten.map Player.name).Nodup ∧
      (∀ t, (batches.flatten.filter (fun p => decide (p.type = t))).Pairwise
        (fun a b => priceOf b ≤ priceOf a)) ∧
      (∀ b ∈ batches, ∃ t, ∀ p ∈ b, p.type = t)) :=
  ⟨by decide, batch_dispatch_exhaustive c3Csv (by decide)⟩

end IPLAuction
